import Mathlib

/-!
# Verification of the hyperchain data model, indices and shard overlay

A shallow embedding of the `hyperchain` crate: the block/transaction data
model, the chunked blocks index, the append-only transactions index, the
`BasicShardBackend` admission routines, the blockchain validation traversal
and the shard overlay state machine, together with theorems settling the
specification's claims about them.

Conventions of the embedding:
* `u64` values become `Nat` (none of the verified code paths overflow or
  rely on wraparound; every arithmetic operation on block numbers and
  timestamps in the source is an increment or a comparison).
* Rust `HashMap` / `HashSet` containers become association lists / lists;
  their iteration order, which is arbitrary in Rust, is determinized to
  list order.
* Fallible operations (`async` I/O, unbounded loops) take a fuel argument
  and return `Option`; `none` means the fuel ran out and never corresponds
  to a behaviour of the source.
* Cryptography (`blake3`, signatures) and wall-clock time are opaque:
  hashes and public keys are abstract values stored in the data structures,
  and `Block::validate` / `Transaction::validate` outcomes enter through an
  environment parameter, exactly as the surrounding code consumes them.
-/

namespace Hyperchain

/-- 256-bit content digest (`src/block/hash.rs`), kept abstract. -/
abbrev Hash := Nat

/-- Asymmetric public key (from `hyperborealib`), kept abstract. -/
abbrev PublicKey := Nat

/-- `Transaction` (`src/block/transaction/mod.rs`): stored hash, metadata,
author, opaque body bytes and signature bytes. -/
structure Transaction where
  hash : Hash
  random_seed : Nat
  created_at : Nat
  author : PublicKey
  body : List Nat
  sign : List Nat
deriving DecidableEq, Repr

/-- `Transaction::get_hash`: returns the stored hash without validating it. -/
def Transaction.get_hash (t : Transaction) : Hash := t.hash

/-- `BlockMinter` (`src/block/minter.rs`). -/
structure BlockMinter where
  public_key : PublicKey
  balance_mask : Hash
deriving DecidableEq, Repr

/-- `Block` (`src/block/mod.rs`): header, metadata and body fields. -/
structure Block where
  previous_block : Option Hash
  hash : Hash
  number : Nat
  random_seed : Nat
  created_at : Nat
  transactions : List Transaction
  minters : List BlockMinter
  validator : PublicKey
  sign : List Nat
deriving DecidableEq, Repr

/-- `Block::get_hash`: returns the stored hash without validating it. -/
def Block.get_hash (b : Block) : Hash := b.hash

/-! ## Chunked blocks index (`src/blockchain/blocks/chunked_blocks.rs`)

A chunk file `chunk-<k>.json` holds a `HashSet` of serialized blocks. The
folder is modelled as an association list from chunk number to the decoded
content of the chunk file; an absent key is an absent file. Blocks compare
by structural equality, mirroring equality of their canonical JSON forms. -/

structure ChunkedBlocksIndex where
  chunk_size : Nat
  chunks : List (Nat × List Block)
  /-- The `tail_block: AtomicU64` cached tail block number. -/
  tail_block : Nat
deriving DecidableEq, Repr

namespace ChunkedBlocksIndex

/-- `ChunkedBlocksIndex::get_block`: read chunk `number / chunk_size` and
search it for a block with the requested number. -/
def get_block (idx : ChunkedBlocksIndex) (number : Nat) : Option Block :=
  match idx.chunks.lookup (number / idx.chunk_size) with
  | none => none
  | some chunk => chunk.find? (fun block => block.number == number)

/-- Replace the content of chunk `k` (rewrite of one chunk file; a folder
holds at most one file per chunk number). -/
def writeChunk : List (Nat × List Block) → Nat → List Block →
    List (Nat × List Block)
  | [], _k, _content => []
  | entry :: rest, k, content =>
      if entry.1 = k then (k, content) :: rest
      else entry :: writeChunk rest k content

/-- `ChunkedBlocksIndex::insert_block`: create the chunk file with the
single block when absent; otherwise re-read the chunk, return `false`
without rewriting when the block is already in the chunk's set, and append
and rewrite otherwise. -/
def insert_block (idx : ChunkedBlocksIndex) (block : Block) :
    ChunkedBlocksIndex × Bool :=
  match idx.chunks.lookup (block.number / idx.chunk_size) with
  | none =>
      ({ idx with
          chunks := (block.number / idx.chunk_size, [block]) :: idx.chunks },
        true)
  | some chunk =>
      if block ∈ chunk then (idx, false)
      else
        ({ idx with
            chunks := writeChunk idx.chunks (block.number / idx.chunk_size)
              (block :: chunk) },
          true)

/-- `BlocksIndex::get_next_block` default implementation:
`get_block(block.number + 1)` (not overridden by `ChunkedBlocksIndex`). -/
def get_next_block (idx : ChunkedBlocksIndex) (block : Block) : Option Block :=
  idx.get_block (block.number + 1)

/-- `BlocksIndex::get_root_block` (`src/blockchain/blocks_index.rs`):
documented to "return the same value as `get_block_by_number(0)`". -/
def get_root_block (idx : ChunkedBlocksIndex) : Option Block :=
  idx.get_block 0

/-- The set of blocks stored across all chunk files. -/
def stored (idx : ChunkedBlocksIndex) : List Block :=
  idx.chunks.flatMap (·.2)

/-- Whether some chunk file stores the given block. -/
def storesBlock (idx : ChunkedBlocksIndex) (block : Block) : Prop :=
  block ∈ idx.stored

instance (idx : ChunkedBlocksIndex) (block : Block) :
    Decidable (idx.storesBlock block) := by
  unfold storesBlock; infer_instance

/-- The lowest chunk number among the existing chunk files
(the directory scan of `get_head_block`). -/
def headChunkNumber (idx : ChunkedBlocksIndex) : Option Nat :=
  idx.chunks.foldl
    (fun head_chunk entry =>
      match head_chunk with
      | some number => if entry.1 < number then some entry.1 else head_chunk
      | none => some entry.1)
    none

/-- `min_by` on block numbers (`HashSet` iteration determinized to list
order; ties cannot arise from a well-formed chunk and are broken by
position). -/
def minByNumber (blocks : List Block) : Option Block :=
  blocks.foldl
    (fun acc b =>
      match acc with
      | none => some b
      | some a => if b.number < a.number then some b else acc)
    none

/-- `ChunkedBlocksIndex::get_head_block`: find the lowest-numbered chunk
file, then the lowest-numbered block inside it. -/
def get_head_block (idx : ChunkedBlocksIndex) : Option Block :=
  match headChunkNumber idx with
  | none => none
  | some head_chunk =>
      match idx.chunks.lookup head_chunk with
      | none => none
      | some chunk => minByNumber chunk

end ChunkedBlocksIndex

/-! ## Transactions index (`src/blockchain/transactions/transactions_file.rs`)

The append-only log is modelled as the list of its block entries, newest
first (each entry points at its predecessor, so the reverse linked list
walked by `lookup_block` is exactly this list). An entry is the block
number together with the hashes of the block's transactions. -/

structure TransactionsFile where
  entries : List (Nat × List Hash)
deriving DecidableEq, Repr

namespace TransactionsFile

/-- `TransactionsFile::lookup_block`: walk entries from the newest and
return the block number of the first entry containing the hash. -/
def lookup_block (tf : TransactionsFile) (transaction : Hash) : Option Nat :=
  (tf.entries.find? (fun entry => entry.2.contains transaction)).map (·.1)

/-- `TransactionsFile::index_block`: append one block entry (it becomes
the newest, and the header points at it). -/
def index_block (tf : TransactionsFile) (block : Block) : TransactionsFile :=
  ⟨(block.number, block.transactions.map Transaction.get_hash) ::
    tf.entries⟩

/-- The `loop` of `index_if_needed`: follow `get_next_block` from the
given block, indexing every newer block, until the chain breaks. -/
def index_loop (idx : ChunkedBlocksIndex) :
    Nat → TransactionsFile → Block → Option TransactionsFile
  | 0, _, _ => none
  | fuel + 1, tf, block =>
      match idx.get_next_block block with
      | none => some tf
      | some next => index_loop idx fuel (tf.index_block next) next

/-- `TransactionsFile::index_if_needed`: resume from the newest indexed
block (or from the blocks index's head block when the log is empty,
indexing it first) and append entries for all newer reachable blocks. -/
def index_if_needed (tf : TransactionsFile) (idx : ChunkedBlocksIndex)
    (fuel : Nat) : Option TransactionsFile :=
  match tf.entries with
  | [] =>
      match idx.get_head_block with
      | none => some tf
      | some block => index_loop idx fuel (tf.index_block block) block
  | (block_number, _) :: _ =>
      match idx.get_block block_number with
      | none => some tf
      | some block => index_loop idx fuel tf block

/-- `TransactionsFile::has_transaction`: re-index, then look the hash up.
Returns the updated on-disk log together with the answer. -/
def has_transaction (tf : TransactionsFile) (idx : ChunkedBlocksIndex)
    (transaction : Hash) (fuel : Nat) :
    Option (TransactionsFile × Bool) :=
  (tf.index_if_needed idx fuel).map
    (fun tf2 => (tf2, (tf2.lookup_block transaction).isSome))

end TransactionsFile

/-! ## Shard backend (`src/shard/backend/basic_shard.rs`)

`BasicShardBackend` over a `BasicBlockchain` composed of the authorities
set (a file-backed set of public keys, `is_authority` is membership), the
chunked blocks index and the transactions file. The staged pool is the
in-memory `HashMap<Hash, Transaction>`, determinized to an association
list. The validator hooks are optional boolean predicates; the
post-handling hooks only produce side effects and have no state to
model. -/

structure BasicShardBackend where
  authorities : List PublicKey
  blocks : ChunkedBlocksIndex
  transactions : TransactionsFile
  staged_transactions : List (Hash × Transaction)
  block_validator : Option (Block → Bool)
  transaction_validator : Option (Transaction → Bool)

namespace BasicShardBackend

/-- `AuthoritiesIndex::is_authority`: membership in the stored key set. -/
def is_authority (authorities : List PublicKey) (validator : PublicKey) :
    Bool :=
  authorities.contains validator

/-- `ShardBackend::get_staged_transactions` for the basic backend: the
keys of the staged pool. -/
def get_staged_transactions (st : BasicShardBackend) : List Hash :=
  st.staged_transactions.map (·.1)

/-- `ShardBackend::get_staged_transaction` for the basic backend. -/
def get_staged_transaction (st : BasicShardBackend) (hash : Hash) :
    Option Transaction :=
  st.staged_transactions.lookup hash

/-- `HashMap::insert`: replace the value under an existing key, or add a
new binding. -/
def poolInsert (pool : List (Hash × Transaction)) (hash : Hash)
    (t : Transaction) : List (Hash × Transaction) :=
  if pool.any (fun p => p.1 == hash) then
    pool.map (fun p => if p.1 == hash then (hash, t) else p)
  else (hash, t) :: pool

/-- The staged-pool rebuild inside `handle_block`: drain the pool and keep
only the transactions the (freshly re-indexed) transactions index does
not report as stabilized. -/
def rebuild_pool (idx : ChunkedBlocksIndex) (fuel : Nat) :
    TransactionsFile → List (Hash × Transaction) →
    Option (TransactionsFile × List (Hash × Transaction))
  | tf, [] => some (tf, [])
  | tf, (hash, t) :: rest =>
      match tf.has_transaction idx hash fuel with
      | none => none
      | some (tf2, is_stabilized) =>
          match rebuild_pool idx fuel tf2 rest with
          | none => none
          | some (tf3, kept) =>
              some (tf3, if is_stabilized then kept else (hash, t) :: kept)

/-- `BasicShardBackend::handle_block`: authority gate, optional validator
hook, insertion into the blocks index, and on success the staged-pool
rebuild. -/
def handle_block (st : BasicShardBackend) (block : Block) (fuel : Nat) :
    Option (BasicShardBackend × Bool) :=
  if ¬ is_authority st.authorities block.validator then some (st, false)
  else if (match st.block_validator with
           | some validator => ! validator block
           | none => false) then some (st, false)
  else
    match st.blocks.insert_block block with
    | (blocks2, result) =>
        if result then
          match rebuild_pool blocks2 fuel st.transactions
              st.staged_transactions with
          | none => none
          | some (tf, filtered_transactions) =>
              some ({ st with
                        blocks := blocks2,
                        transactions := tf,
                        staged_transactions := filtered_transactions },
                true)
        else some ({ st with blocks := blocks2 }, false)

/-- `BasicShardBackend::handle_transaction`: reject stabilized
transactions, run the optional validator hook, then stage the transaction;
the returned flag is `result.is_some()` where `result` is the old binding
`HashMap::insert` displaced. -/
def handle_transaction (st : BasicShardBackend) (t : Transaction)
    (fuel : Nat) : Option (BasicShardBackend × Bool) :=
  match st.transactions.has_transaction st.blocks t.get_hash fuel with
  | none => none
  | some (tf2, is_stabilized) =>
      if is_stabilized then some ({ st with transactions := tf2 }, false)
      else if (match st.transaction_validator with
               | some validator => ! validator t
               | none => false) then
        some ({ st with transactions := tf2 }, false)
      else
        some ({ st with
                  transactions := tf2,
                  staged_transactions :=
                    poolInsert st.staged_transactions t.get_hash t },
          (st.staged_transactions.lookup t.get_hash).isSome)

end BasicShardBackend

/-! ## Shard overlay data (`src/shard/`)

The live protocol is the one `src/shard/mod.rs` implements (`message.rs`
in the tree is a stale earlier protocol revision: `mod.rs` matches on
`ShardMessage::Heartbeat` and on `ShardUpdate::Status { head_block,
tail_block, staged_transactions }` / `AnnounceMembers`, which only the
newer message set provides). Transport, encoding and wall-clock time are
outside the embedding: a send either succeeds or fails (an oracle input),
and the `Instant` fields of a member status, which only drive the timer
evictions, are modelled by explicit eviction transitions. -/

/-- `ShardMember` (`src/shard/member.rs`). -/
structure ShardMember where
  client_public : PublicKey
  server_public : PublicKey
  server_address : String
deriving DecidableEq, Repr

/-- `ShardMemberStatus` (`src/shard/mod.rs`) minus its three `Instant`
fields (real time; they only feed the timer evictions). -/
structure ShardMemberStatus where
  head_block : Option Block
  tail_block : Option Block
  staged_transactions : List Hash
deriving DecidableEq, Repr

namespace ShardMemberStatus

/-- `ShardMemberStatus::new`. -/
def new : ShardMemberStatus := ⟨none, none, []⟩

/-- `ShardMemberStatus::is_block_known`: a number-range check when both
endpoints are known, a hash comparison when one is, `false` otherwise. -/
def is_block_known (status : ShardMemberStatus) (block : Block) : Bool :=
  match status.head_block, status.tail_block with
  | some head_block, some tail_block =>
      decide (head_block.number ≤ block.number ∧
        block.number ≤ tail_block.number)
  | some known_block, none => known_block.get_hash == block.get_hash
  | none, some known_block => known_block.get_hash == block.get_hash
  | none, none => false

/-- `ShardMemberStatus::is_transaction_known`. -/
def is_transaction_known (status : ShardMemberStatus) (t : Transaction) :
    Bool :=
  status.staged_transactions.contains t.get_hash

end ShardMemberStatus

/-- `ShardUpdate` (per `src/shard/mod.rs` usage). -/
inductive ShardUpdate where
  | Status (head_block tail_block : Option Block)
      (staged_transactions : List Hash)
  | AnnounceMembers (members : List ShardMember)
  | AnnounceBlocks (blocks : List Block)
  | AnnounceTransactions (transactions : List Transaction)
deriving DecidableEq, Repr

/-- `ShardMessage` (per `src/shard/mod.rs` usage). -/
inductive ShardMessage where
  | Subscribe
  | Unsubscribe
  | Heartbeat
  | Update (update : ShardUpdate)
deriving DecidableEq, Repr

/-- `ShardOptions` (`src/shard/options.rs`) minus the transport encoding
and the three timer durations. -/
structure ShardOptions where
  accept_subscriptions : Bool
  max_subscribers : Nat
  max_subscriptions : Nat
  remember_subscribers_statuses : Bool
  announce_members_on_failed_subscription : Bool
  subscribe_on_announced_members : Bool
  randomly_choose_announced_members : Bool
  send_blocks_diff_on_statuses : Bool
  max_blocks_diff_size : Nat
  send_transactions_diff_on_statuses : Bool
  max_transactions_diff_size : Nat
  max_handled_blocks_memory : Nat
  max_handled_transactions_memory : Nat

/-- `ShardOptions::default` (encodings and durations elided). -/
def ShardOptions.default : ShardOptions where
  accept_subscriptions := true
  max_subscribers := 32
  max_subscriptions := 32
  remember_subscribers_statuses := true
  announce_members_on_failed_subscription := true
  subscribe_on_announced_members := true
  randomly_choose_announced_members := true
  send_blocks_diff_on_statuses := true
  max_blocks_diff_size := 16
  send_transactions_diff_on_statuses := true
  max_transactions_diff_size := 64
  max_handled_blocks_memory := 1024 * 1024 / 32
  max_handled_transactions_memory := 4 * 1024 * 1024 / 32

/-- The member maps (`HashMap<ShardMember, ShardMemberStatus>`),
determinized to association lists. -/
abbrev MemberMap := List (ShardMember × ShardMemberStatus)

/-- `HashMap::get`. -/
def mlookup (l : MemberMap) (m : ShardMember) : Option ShardMemberStatus :=
  (l.find? (fun p => decide (p.1 = m))).map (·.2)

/-- `HashMap::contains_key`. -/
def mcontains (l : MemberMap) (m : ShardMember) : Bool :=
  l.any (fun p => decide (p.1 = m))

/-- `HashMap::remove` (key side; the displaced status is `mlookup`). -/
def mremove (l : MemberMap) (m : ShardMember) : MemberMap :=
  l.filter (fun p => ! decide (p.1 = m))

/-- `HashMap::insert` (replace an existing binding or add a new one). -/
def minsert (l : MemberMap) (m : ShardMember) (s : ShardMemberStatus) :
    MemberMap :=
  if l.any (fun p => decide (p.1 = m)) then
    l.map (fun p => if p.1 = m then (m, s) else p)
  else (m, s) :: l

/-- `HashMap::get_mut` followed by a field update; identity when the key
is absent. -/
def mupdate (l : MemberMap) (m : ShardMember)
    (f : ShardMemberStatus → ShardMemberStatus) : MemberMap :=
  l.map (fun p => if p.1 = m then (p.1, f p.2) else p)

/-- `Shard` (`src/shard/mod.rs`): the backend, the loop-suppression sets,
and the two member maps. The middleware handle, shard name and message
queue live in the transport layer outside the embedding. -/
structure Shard where
  backend : BasicShardBackend
  handled_blocks : List Hash
  handled_transactions : List Hash
  subscriptions : MemberMap
  subscribers : MemberMap
  options : ShardOptions

namespace Shard

/-- `Shard::unsubscribe`: sends `ShardMessage::Subscribe` — the source
really does, this is the C7 bug — and only then removes the member from
`subscriptions`; a failed send (`sendOk = false`) aborts via `?` before
the removal. Sent messages are returned as `(recipient, message)`
pairs. -/
def unsubscribe (st : Shard) (shard : ShardMember) (sendOk : Bool) :
    Shard × List (ShardMember × ShardMessage) :=
  if sendOk then
    ({ st with subscriptions := mremove st.subscriptions shard },
      [(shard, ShardMessage.Subscribe)])
  else (st, [])

end Shard

/-- The transactions diff of the `send_transactions_diff_on_statuses`
branch of `Shard::update` (`src/shard/mod.rs:650-666`): iterate our
staged hashes, and when the remote's `staged_transactions` *contains* the
hash, push the resolved staged transaction. No size limit is applied. -/
def transactions_diff (our_staged_transactions : List Hash)
    (pool : List (Hash × Transaction))
    (staged_transactions : List Hash) : List Transaction :=
  match our_staged_transactions with
  | [] => []
  | hash :: rest =>
      if staged_transactions.contains hash then
        match pool.lookup hash with
        | some t => t :: transactions_diff rest pool staged_transactions
        | none => transactions_diff rest pool staged_transactions
      else transactions_diff rest pool staged_transactions

/-! ## Blockchain validation (`src/blockchain/mod.rs`, `Blockchain::validate_since`) -/

/-- `BlockchainValidationResult` (`src/blockchain/mod.rs`). Payload fields
that only carry diagnostic copies of keys/signatures are elided. -/
inductive BlockchainValidationResult where
  | UnknownBlockHash (hash : Hash)
  | UnknownBlockNumber (number : Nat)
  | InvalidCreationTime (block_number created_at : Nat)
  | InvalidNumber (block_number previous_number : Nat)
  | InvalidPreviosBlockReference (block_number : Nat)
      (expected_previous got_previous : Option Hash)
  | InvalidValidator (block_number : Nat) (validator : PublicKey)
  | InvalidSign (block_number : Nat)
  | SignVerificationError (block_number : Nat)
  | Valid
deriving DecidableEq, Repr

/-- The environment a validation traversal runs in: the authorities set
(`AuthoritiesIndex::is_authority` is membership in the stored key set), the
outcome of `Block::validate()` (cryptography and wall-clock are opaque:
`.ok true` is `Valid`, `.ok false` a structured non-valid result, `.error`
a signature-verification transport error), and the `timestamp() + 24h`
bound computed at the start of `validate_since`. -/
structure ValidationEnv where
  is_authority : PublicKey → Bool
  block_validate : Block → Except Unit Bool
  max_timestamp : Nat

/-- The `while let Some(curr_block) = block.take()` loop of
`Blockchain::validate_since`, with explicit fuel (`none` = fuel ran out,
which never corresponds to a source behaviour). -/
def validate_loop (env : ValidationEnv) (idx : ChunkedBlocksIndex) :
    Nat → Option Block → Option Hash → Nat → Nat →
    Option BlockchainValidationResult
  | 0, _, _, _, _ => none
  | _ + 1, none, _, _, _ => some .Valid
  | fuel + 1, some curr, prev_block_hash, prev_created_at, prev_number =>
      if curr.created_at < prev_created_at ∨
          curr.created_at > env.max_timestamp then
        some (.InvalidCreationTime curr.number curr.created_at)
      else if 0 < prev_number ∧ prev_number + 1 ≠ curr.number then
        some (.InvalidNumber curr.number prev_number)
      else if prev_block_hash ≠ curr.previous_block then
        some (.InvalidPreviosBlockReference curr.number prev_block_hash
          curr.previous_block)
      else if ¬ env.is_authority curr.validator then
        some (.InvalidValidator curr.number curr.validator)
      else
        match env.block_validate curr with
        | .error _ => some (.SignVerificationError curr.number)
        | .ok false => some (.InvalidSign curr.number)
        | .ok true =>
            validate_loop env idx fuel (idx.get_next_block curr)
              (some curr.get_hash) curr.created_at curr.number

/-- `Blockchain::validate_since`: load the start block (the root block for
`start_block_number == 0`), seed the previous-hash/created-at/number state
— note `prev_number = start_block_number - 1` for a positive start — and
run the loop. -/
def validate_since (env : ValidationEnv) (idx : ChunkedBlocksIndex)
    (start_block_number : Nat) (fuel : Nat) :
    Option BlockchainValidationResult :=
  let block := if start_block_number > 0 then idx.get_block start_block_number
               else idx.get_root_block
  validate_loop env idx fuel block (block.bind Block.previous_block) 0
    (if start_block_number > 0 then start_block_number - 1 else 0)

/-- The blocks visited by the `validate_since` loop, in traversal order
(mirrors `validate_loop` step for step). -/
def validate_visited (env : ValidationEnv) (idx : ChunkedBlocksIndex) :
    Nat → Option Block → Option Hash → Nat → Nat → List Block
  | 0, _, _, _, _ => []
  | _ + 1, none, _, _, _ => []
  | fuel + 1, some curr, prev_block_hash, prev_created_at, prev_number =>
      if curr.created_at < prev_created_at ∨
          curr.created_at > env.max_timestamp then [curr]
      else if 0 < prev_number ∧ prev_number + 1 ≠ curr.number then [curr]
      else if prev_block_hash ≠ curr.previous_block then [curr]
      else if ¬ env.is_authority curr.validator then [curr]
      else
        match env.block_validate curr with
        | .error _ => [curr]
        | .ok false => [curr]
        | .ok true =>
            curr :: validate_visited env idx fuel (idx.get_next_block curr)
              (some curr.get_hash) curr.created_at curr.number

/-- The blocks visited by `validate_since` from a given start number. -/
def visited_since (env : ValidationEnv) (idx : ChunkedBlocksIndex)
    (start_block_number : Nat) (fuel : Nat) : List Block :=
  let block := if start_block_number > 0 then idx.get_block start_block_number
               else idx.get_root_block
  validate_visited env idx fuel block (block.bind Block.previous_block) 0
    (if start_block_number > 0 then start_block_number - 1 else 0)

/-! ## Derived traversal notions and concrete example inputs -/

/-- The relation between consecutive blocks visited by a `Valid`
traversal. -/
def ChainStep (x y : Block) : Prop :=
  y.number = x.number + 1 ∧ y.previous_block = some x.get_hash ∧
  x.created_at ≤ y.created_at

/-- Transaction for the C2 failing input. -/
def c2Tx : Transaction := ⟨5, 0, 0, 1, [], []⟩

/-- Fresh backend for the C2 failing input: nothing stabilized, no
validator hook, empty staged pool. -/
def c2State : BasicShardBackend := ⟨[], ⟨1, [], 0⟩, ⟨[]⟩, [], none, none⟩

/-- Backend whose staged pool already contains `c2Tx` under its hash. -/
def c2StateDup : BasicShardBackend :=
  ⟨[], ⟨1, [], 0⟩, ⟨[]⟩, [(5, c2Tx)], none, none⟩

/-- Transaction staged in the pool for the C3 failing input. -/
def c3Tx : Transaction := ⟨5, 0, 0, 1, [], []⟩

/-- Root block (already indexed) for the C3 failing input. -/
def c3Block0 : Block := ⟨none, 20, 0, 0, 0, [], [], 1, []⟩

/-- Admitted block of the C3 failing input: number 2, leaving a gap (no
block number 1 exists), containing the staged transaction. -/
def c3Block : Block := ⟨some 99, 22, 2, 0, 0, [c3Tx], [], 1, []⟩

/-- Backend state for the C3 failing input: authority 1, block 0 stored
and indexed, `c3Tx` staged. -/
def c3State : BasicShardBackend :=
  ⟨[1], ⟨1, [(0, [c3Block0])], 0⟩, ⟨[(0, [])]⟩, [(5, c3Tx)], none, none⟩

/-- The blocks visited (and hence indexed) by the `index_if_needed` loop
from a given block. -/
def index_loop_visited (idx : ChunkedBlocksIndex) :
    Nat → Block → List Block
  | 0, _ => []
  | fuel + 1, block =>
      match idx.get_next_block block with
      | none => []
      | some next => next :: index_loop_visited idx fuel next

/-- The blocks a call to `index_if_needed` appends entries for: the
successor chain of the newest indexed block, or the head block and its
successor chain when the log is empty. -/
def index_if_needed_visited (tf : TransactionsFile)
    (idx : ChunkedBlocksIndex) (fuel : Nat) : List Block :=
  match tf.entries with
  | [] =>
      match idx.get_head_block with
      | none => []
      | some block => block :: index_loop_visited idx fuel block
  | (block_number, _) :: _ =>
      match idx.get_block block_number with
      | none => []
      | some block => index_loop_visited idx fuel block

/-- Chained block for the C3 witness: number 1, directly reachable from
the indexed block 0, containing the staged transaction. -/
def c3ChainBlock : Block := ⟨some 20, 21, 1, 0, 0, [c3Tx], [], 1, []⟩

/-- Concrete environment for the C1 witness: every key is an authority,
every block's `validate()` returns `Valid`, generous timestamp bound. -/
def c1Env : ValidationEnv := ⟨fun _ => true, fun _ => .ok true, 100⟩

/-- Concrete two-block chain for the C1 witness. -/
def c1Block0 : Block := ⟨none, 10, 0, 0, 5, [], [], 1, []⟩

/-- Second block of the C1 witness chain, linked to `c1Block0`. -/
def c1Block1 : Block := ⟨some 10, 11, 1, 0, 6, [], [], 1, []⟩

/-- Chunked index storing the C1 witness chain. -/
def c1Index : ChunkedBlocksIndex := ⟨2, [(0, [c1Block0, c1Block1])], 0⟩

/-- Outcomes of `Block::validate()` / `Transaction::validate()` as the
overlay consumes them (cryptography and wall-clock are opaque): `.ok
true` is `Valid`, `.ok false` a structured non-valid result, `.error` a
verification transport error, which `?` propagates out of `update()`. -/
structure ShardEnv where
  block_validate : Block → Except Unit Bool
  transaction_validate : Transaction → Except Unit Bool

/-- Insert into a list sorted ascending by block number (ties keep the
earlier element first, like the stable `sort_by_key`). -/
def insertByNumber (b : Block) : List Block → List Block
  | [] => [b]
  | x :: xs =>
      if b.number ≤ x.number then b :: x :: xs else x :: insertByNumber b xs

/-- `blocks.sort_by_key(|block| block.number())`. -/
def sortByNumber (blocks : List Block) : List Block :=
  blocks.foldr insertByNumber []

namespace Shard

/-- The per-block ingestion loop of the `AnnounceBlocks` branch of
`Shard::update`: skip already-handled hashes, abort the whole update on a
validation transport error, submit valid blocks to the backend, maintain
the clear-on-cap `handled_blocks` set, and collect the valid blocks. -/
def processAnnouncedBlocks (env : ShardEnv) (fuel : Nat) :
    Shard → List Block → Option (Shard × List Block)
  | st, [] => some (st, [])
  | st, block :: rest =>
      if st.handled_blocks.contains block.get_hash then
        processAnnouncedBlocks env fuel st rest
      else
        match env.block_validate block with
        | .error _ => none
        | .ok false => processAnnouncedBlocks env fuel st rest
        | .ok true =>
            match st.backend.handle_block block fuel with
            | none => none
            | some (backend2, _) =>
                let handled :=
                  if st.handled_blocks.length ≥
                      st.options.max_handled_blocks_memory then []
                  else st.handled_blocks
                let st2 := { st with
                  backend := backend2,
                  handled_blocks := block.get_hash :: handled }
                match processAnnouncedBlocks env fuel st2 rest with
                | none => none
                | some (st3, valid_blocks) =>
                    some (st3, block :: valid_blocks)

/-- The re-send loop of the `AnnounceBlocks` branch
(`src/shard/mod.rs:737-773`): for each member other than the sender,
filter the valid blocks through `is_block_known` of the status looked up
for the *sender* (`member`), and send the nonempty remainders. Per-peer
send failures only evict the peer and are not modelled. -/
def resendAnnouncedBlocks (st : Shard) (member : ShardMember)
    (valid_blocks : List Block) : List (ShardMember × ShardUpdate) :=
  ((st.subscriptions.map (·.1) ++ st.subscribers.map (·.1)).filter
      (fun subscriber => ! decide (subscriber = member))).filterMap
    (fun subscriber =>
      match (mlookup st.subscriptions member).orElse
          (fun _ => mlookup st.subscribers member) with
      | none => none
      | some status =>
          let sub_blocks := valid_blocks.filter
            (fun block => ! status.is_block_known block)
          if sub_blocks.isEmpty then none
          else some (subscriber, ShardUpdate.AnnounceBlocks sub_blocks))

/-- Modelled from the spec: §4.G.3 step 4 prescribes filtering the
re-sent blocks by the *recipient's* own status record ("build
`sub_blocks = { b ∈ valid_blocks | !peer.status.is_block_known(b) }`");
the source consults the sender's record instead. Only the looked-up key
differs from `resendAnnouncedBlocks`. -/
def resendAnnouncedBlocksPerSpec (st : Shard) (member : ShardMember)
    (valid_blocks : List Block) : List (ShardMember × ShardUpdate) :=
  ((st.subscriptions.map (·.1) ++ st.subscribers.map (·.1)).filter
      (fun subscriber => ! decide (subscriber = member))).filterMap
    (fun subscriber =>
      match (mlookup st.subscriptions subscriber).orElse
          (fun _ => mlookup st.subscribers subscriber) with
      | none => none
      | some status =>
          let sub_blocks := valid_blocks.filter
            (fun block => ! status.is_block_known block)
          if sub_blocks.isEmpty then none
          else some (subscriber, ShardUpdate.AnnounceBlocks sub_blocks))

/-- The full `AnnounceBlocks` branch: sort ascending by number, ingest,
then re-send. -/
def handleAnnounceBlocks (env : ShardEnv) (fuel : Nat) (st : Shard)
    (member : ShardMember) (blocks : List Block) :
    Option (Shard × List (ShardMember × ShardUpdate)) :=
  match processAnnouncedBlocks env fuel st (sortByNumber blocks) with
  | none => none
  | some (st2, valid_blocks) =>
      some (st2, resendAnnouncedBlocks st2 member valid_blocks)

end Shard

/-- The walk over one chunk inside `get_tail_block`: follow
`previous_block` links through the ascending blocks, returning the new
tail and whether the walk stopped at a gap. -/
def tailWalkChunk : List Block → Block → Block × Bool
  | [], tail_block => (tail_block, false)
  | block :: rest, tail_block =>
      if block.previous_block == some tail_block.get_hash then
        tailWalkChunk rest block
      else (tail_block, true)

/-- The chunk-by-chunk loop of `ChunkedBlocksIndex::get_tail_block`. -/
def tailLoop (idx : ChunkedBlocksIndex) : Nat → Nat → Block → Option Block
  | 0, _, _ => none
  | fuel + 1, chunk_number, tail_block =>
      match idx.chunks.lookup chunk_number with
      | none => some tail_block
      | some chunk =>
          let blocks := sortByNumber (chunk.filter
            (fun b => decide (tail_block.number < b.number)))
          match tailWalkChunk blocks tail_block with
          | (tail2, true) => some tail2
          | (tail2, false) => tailLoop idx fuel (chunk_number + 1) tail2

/-- `ChunkedBlocksIndex::get_tail_block`: reconcile the cached tail
number against the head block, then walk chunks forward along unbroken
`previous_block` links. Returns the tail block and the index with its
updated cache. -/
def ChunkedBlocksIndex.get_tail_block (idx : ChunkedBlocksIndex)
    (fuel : Nat) : Option (Option Block × ChunkedBlocksIndex) :=
  match idx.get_head_block with
  | none => some (none, idx)
  | some head =>
      let tail0 :=
        if idx.tail_block < head.number then head
        else if head.number < idx.tail_block then
          match idx.get_block idx.tail_block with
          | some block => block
          | none => head
        else head
      match tailLoop idx fuel (tail0.number / idx.chunk_size) tail0 with
      | none => none
      | some tail =>
          some (some tail, { idx with tail_block := tail.number })

namespace BasicShardBackend

/-- `ShardBackend::get_head_block` for the basic backend. -/
def get_head_block (st : BasicShardBackend) : Option Block :=
  st.blocks.get_head_block

/-- `ShardBackend::get_tail_block` for the basic backend (threads the
tail-cache update through). -/
def get_tail_block (st : BasicShardBackend) (fuel : Nat) :
    Option (Option Block × BasicShardBackend) :=
  (st.blocks.get_tail_block fuel).map
    (fun r => (r.1, { st with blocks := r.2 }))

/-- `ShardBackend::get_next_block` default implementation. -/
def get_next_block (st : BasicShardBackend) (block : Block) :
    Option Block :=
  st.blocks.get_next_block block

end BasicShardBackend

/-- Option-of-block comparison by block number. Modelled from the spec:
the diff walks compare blocks "by number" (§4.G.4) — the snapshot's
`Block` derives no ordering, so the `<` comparisons of this branch are
pinned by the spec — and `None` orders below `Some`, as in Rust's
derived `Option` ordering. -/
def optBlockLtByNumber : Option Block → Option Block → Bool
  | none, none => false
  | none, some _ => true
  | some _, none => false
  | some a, some b => decide (a.number < b.number)

/-- The `[our_head] <blocks> [remote_head]` walk of the status blocks
diff: push blocks while ours is below the remote head and the diff is
under the cap, following `get_next_block`. -/
def diffHeadWalk (idx : ChunkedBlocksIndex) (remote_head : Option Block)
    (max_size : Nat) : Nat → Block → List Block → Option (List Block)
  | 0, _, _ => none
  | fuel + 1, our_head_block, diff_blocks =>
      if optBlockLtByNumber (some our_head_block) remote_head then
        if diff_blocks.length ≥ max_size then some diff_blocks
        else
          match idx.get_next_block our_head_block with
          | some next =>
              diffHeadWalk idx remote_head max_size fuel next
                (diff_blocks ++ [our_head_block])
          | none => some (diff_blocks ++ [our_head_block])
      else some diff_blocks

/-- The `[remote_tail] <blocks> [our_tail]` walk of the status blocks
diff. -/
def diffTailWalk (idx : ChunkedBlocksIndex) (our_tail_block : Block)
    (max_size : Nat) : Nat → Block → List Block → Option (List Block)
  | 0, _, _ => none
  | fuel + 1, tail_block, diff_blocks =>
      if tail_block.number < our_tail_block.number then
        if diff_blocks.length ≥ max_size then some diff_blocks
        else
          match idx.get_next_block tail_block with
          | some next =>
              diffTailWalk idx our_tail_block max_size fuel next
                (diff_blocks ++ [tail_block])
          | none => some (diff_blocks ++ [tail_block])
      else some diff_blocks

namespace Shard

/-- The head/tail ingestion of the `Status` branch: validate — a
transport error aborts the whole update via `?` — and submit valid
blocks to the backend (result ignored). -/
def ingestStatusBlock (env : ShardEnv) (fuel : Nat) (st : Shard) :
    Option Block → Option Shard
  | none => some st
  | some block =>
      match env.block_validate block with
      | .error _ => none
      | .ok false => some st
      | .ok true =>
          (st.backend.handle_block block fuel).map
            (fun r => { st with backend := r.1 })

/-- Step 3 of the `Status` branch: write the announced status into the
member's record (`subscribers` first, then `subscriptions`), when
`remember_subscribers_statuses` is enabled. -/
def rememberStatus (st : Shard) (member : ShardMember)
    (head_block tail_block : Option Block) (staged : List Hash) : Shard :=
  if st.options.remember_subscribers_statuses then
    if mcontains st.subscribers member then
      { st with subscribers := (mupdate st.subscribers member
          (fun _ => ⟨head_block, tail_block, staged⟩)) }
    else
      { st with subscriptions := (mupdate st.subscriptions member
          (fun _ => ⟨head_block, tail_block, staged⟩)) }
  else st

/-- The blocks diff of the `send_blocks_diff_on_statuses` branch
(`src/shard/mod.rs:567-646`): seed with our endpoints when the remote
lacks its own, then run the two capped walks. -/
def statusBlocksDiff (st : Shard) (head_block tail_block : Option Block)
    (fuel : Nat) : Option (Shard × List Block) :=
  let our_head_block := st.backend.get_head_block
  match st.backend.get_tail_block fuel with
  | none => none
  | some (our_tail_block, backend2) =>
      let st2 := { st with backend := backend2 }
      match our_head_block, our_tail_block with
      | some oh, some ot =>
          let diff0 := (if head_block.isNone then [oh] else []) ++
            (if tail_block.isNone then [ot] else [])
          let tail_start :=
            match tail_block with
            | some block => block
            | none => oh
          match diffHeadWalk st2.backend.blocks head_block
              st2.options.max_blocks_diff_size fuel oh diff0 with
          | none => none
          | some diff1 =>
              match diffTailWalk st2.backend.blocks ot
                  st2.options.max_blocks_diff_size fuel tail_start
                  diff1 with
              | none => none
              | some diff2 => some (st2, diff2)
      | some block, none =>
          some (st2,
            if optBlockLtByNumber (some block) head_block ||
                optBlockLtByNumber tail_block (some block) then [block]
            else [])
      | none, some block =>
          some (st2,
            if optBlockLtByNumber (some block) head_block ||
                optBlockLtByNumber tail_block (some block) then [block]
            else [])
      | none, none => some (st2, [])

/-- The transactions diff of the `send_transactions_diff_on_statuses`
branch, resolved against the backend's staged pool. -/
def statusTransactionsDiff (st : Shard) (staged : List Hash) :
    List Transaction :=
  transactions_diff st.backend.get_staged_transactions
    st.backend.staged_transactions staged

/-- The full `Status` branch of `Shard::update`. Both diff messages are
sent unconditionally when their options are enabled, even when empty. -/
def handleStatus (env : ShardEnv) (fuel : Nat) (st : Shard)
    (member : ShardMember) (head_block tail_block : Option Block)
    (staged_transactions : List Hash) :
    Option (Shard × List (ShardMember × ShardUpdate)) := do
  let st1 ← ingestStatusBlock env fuel st head_block
  let st2 ← ingestStatusBlock env fuel st1 tail_block
  let staged := staged_transactions.eraseDups
  let st3 := rememberStatus st2 member head_block tail_block staged
  let (st4, sends1) ←
    if st3.options.send_blocks_diff_on_statuses then
      match statusBlocksDiff st3 head_block tail_block fuel with
      | none => none
      | some (st4, diff_blocks) =>
          some (st4, [(member, ShardUpdate.AnnounceBlocks diff_blocks)])
    else some (st3, [])
  let sends2 :=
    if st4.options.send_transactions_diff_on_statuses then
      [(member,
        ShardUpdate.AnnounceTransactions (statusTransactionsDiff st4 staged))]
    else []
  return (st4, sends1 ++ sends2)

/-- The per-transaction ingestion loop of the `AnnounceTransactions`
branch (no sorting — the source leaves it as a TODO). -/
def processAnnouncedTransactions (env : ShardEnv) (fuel : Nat) :
    Shard → List Transaction → Option (Shard × List Transaction)
  | st, [] => some (st, [])
  | st, t :: rest =>
      if st.handled_transactions.contains t.get_hash then
        processAnnouncedTransactions env fuel st rest
      else
        match env.transaction_validate t with
        | .error _ => none
        | .ok false => processAnnouncedTransactions env fuel st rest
        | .ok true =>
            match st.backend.handle_transaction t fuel with
            | none => none
            | some (backend2, _) =>
                let handled :=
                  if st.handled_transactions.length ≥
                      st.options.max_handled_transactions_memory then []
                  else st.handled_transactions
                let st2 := { st with
                  backend := backend2,
                  handled_transactions := t.get_hash :: handled }
                match processAnnouncedTransactions env fuel st2 rest with
                | none => none
                | some (st3, valid_transactions) =>
                    some (st3, t :: valid_transactions)

/-- The re-send loop of the `AnnounceTransactions` branch; like the
blocks loop it consults the *sender's* status for every recipient. -/
def resendAnnouncedTransactions (st : Shard) (member : ShardMember)
    (valid_transactions : List Transaction) :
    List (ShardMember × ShardUpdate) :=
  ((st.subscriptions.map (·.1) ++ st.subscribers.map (·.1)).filter
      (fun subscriber => ! decide (subscriber = member))).filterMap
    (fun subscriber =>
      match (mlookup st.subscriptions member).orElse
          (fun _ => mlookup st.subscribers member) with
      | none => none
      | some status =>
          let sub_transactions := valid_transactions.filter
            (fun t => ! status.is_transaction_known t)
          if sub_transactions.isEmpty then none
          else some (subscriber,
            ShardUpdate.AnnounceTransactions sub_transactions))

/-- The full `AnnounceTransactions` branch. -/
def handleAnnounceTransactions (env : ShardEnv) (fuel : Nat) (st : Shard)
    (member : ShardMember) (transactions : List Transaction) :
    Option (Shard × List (ShardMember × ShardUpdate)) :=
  match processAnnouncedTransactions env fuel st transactions with
  | none => none
  | some (st2, valid_transactions) =>
      some (st2, resendAnnouncedTransactions st2 member valid_transactions)

end Shard

/-- Option-of-number comparison with `None` lowest, as in Rust's derived
`Option<u64>` ordering (used by the shrink sorts). -/
def optNatLt : Option Nat → Option Nat → Bool
  | none, none => false
  | none, some _ => true
  | some _, none => false
  | some a, some b => decide (a < b)

/-- The sort key of the shrink loops: the recorded tail block number. -/
def tailNumberKey (p : ShardMember × ShardMemberStatus) : Option Nat :=
  p.2.tail_block.map Block.number

/-- Insert into a list sorted descending by tail number. -/
def insertByTailDesc (p : ShardMember × ShardMemberStatus) :
    MemberMap → MemberMap
  | [] => [p]
  | q :: qs =>
      if optNatLt (tailNumberKey q) (tailNumberKey p) then p :: q :: qs
      else q :: insertByTailDesc p qs

/-- The `sort_by` of the shrink loops: descending by recorded tail block
number, so the end of the list holds the least useful members. (`HashMap`
iteration order is arbitrary in the source, so any order among ties is a
valid determinization.) -/
def sortByTailDesc (l : MemberMap) : MemberMap :=
  l.foldr insertByTailDesc []

namespace Shard

/-- `Shard::shrink_subscriptions`: evict members with the smallest
recorded tail numbers until the map size is at most the target; returns
the evicted members. -/
def shrink_subscriptions (st : Shard) (shrink_to : Nat) :
    Shard × List ShardMember :=
  if st.subscriptions.length ≤ shrink_to then (st, [])
  else
    let shrinked := ((sortByTailDesc st.subscriptions).drop shrink_to).map
      (·.1)
    ({ st with subscriptions := (st.subscriptions.filter
        (fun p => ! shrinked.contains p.1)) }, shrinked)

/-- `Shard::shrink_subscribers`: same eviction over `subscribers`. -/
def shrink_subscribers (st : Shard) (shrink_to : Nat) :
    Shard × List ShardMember :=
  if st.subscribers.length ≤ shrink_to then (st, [])
  else
    let shrinked := ((sortByTailDesc st.subscribers).drop shrink_to).map
      (·.1)
    ({ st with subscribers := (st.subscribers.filter
        (fun p => ! shrinked.contains p.1)) }, shrinked)

/-- `Shard::subscribe`: make room by shrinking when at the cap (sending
`Unsubscribe` to the evicted, failures ignored), send `Subscribe` — a
failed send (`sendOk = false`) aborts before any map change — then move
the member out of `subscribers` and into `subscriptions`. -/
def subscribe (st : Shard) (shard : ShardMember) (sendOk : Bool) :
    Shard × List (ShardMember × ShardMessage) :=
  if st.options.max_subscriptions = 0 then (st, [])
  else
    let step :=
      if st.subscriptions.length ≥ st.options.max_subscriptions then
        shrink_subscriptions st (st.options.max_subscriptions - 1)
      else (st, [])
    let msgs := step.2.map (fun m => (m, ShardMessage.Unsubscribe))
    if sendOk then
      ({ step.1 with
          subscribers := mremove step.1.subscribers shard,
          subscriptions :=
            minsert step.1.subscriptions shard ShardMemberStatus.new },
        msgs ++ [(shard, ShardMessage.Subscribe)])
    else (step.1, msgs)

/-- The subscription loop of the `AnnounceMembers` branch: while below
the cap and candidates remain, pick one (by the random draw when
`randomly_choose_announced_members`, else the head) and try to subscribe.
The oracle supplies, per iteration, the random draw and the send
outcome. -/
def announceMembersLoop (oracle : Nat → Nat × Bool) :
    Nat → Nat → Shard → List ShardMember →
    Shard × List (ShardMember × ShardMessage)
  | 0, _, st, _ => (st, [])
  | fuel + 1, i, st, members =>
      if members.isEmpty then (st, [])
      else if st.subscriptions.length ≥ st.options.max_subscriptions then
        (st, [])
      else
        let draw := (oracle i).1
        let index :=
          if st.options.randomly_choose_announced_members then
            draw % members.length
          else 0
        match members[index]? with
        | none => (st, [])
        | some m =>
            let step := subscribe st m (oracle i).2
            let next := announceMembersLoop oracle fuel (i + 1) step.1
              (members.eraseIdx index)
            (next.1, step.2 ++ next.2)

/-- The `AnnounceMembers` branch: only honored from a member we are
subscribed to and when `subscribe_on_announced_members` is enabled. -/
def handleAnnounceMembers (st : Shard) (member : ShardMember)
    (members : List ShardMember) (oracle : Nat → Nat × Bool) :
    Shard × List (ShardMember × ShardMessage) :=
  if st.options.subscribe_on_announced_members &&
      mcontains st.subscriptions member then
    announceMembersLoop oracle members.length 0 st members
  else (st, [])

/-- The `ShardMessage::Update` branch of `Shard::update`: drop updates
from strangers, else dispatch. Update-type sends are wrapped into
`ShardMessage::Update` as `Shard::send` does. -/
def handleUpdateMessage (env : ShardEnv) (fuel : Nat) (st : Shard)
    (member : ShardMember) (update : ShardUpdate)
    (oracle : Nat → Nat × Bool) :
    Option (Shard × List (ShardMember × ShardMessage)) :=
  if mcontains st.subscribers member || mcontains st.subscriptions member
  then
    match update with
    | .Status head_block tail_block staged_transactions =>
        (handleStatus env fuel st member head_block tail_block
          staged_transactions).map
          (fun r => (r.1, r.2.map (fun p => (p.1, ShardMessage.Update p.2))))
    | .AnnounceMembers members =>
        some (handleAnnounceMembers st member members oracle)
    | .AnnounceBlocks blocks =>
        (handleAnnounceBlocks env fuel st member blocks).map
          (fun r => (r.1, r.2.map (fun p => (p.1, ShardMessage.Update p.2))))
    | .AnnounceTransactions transactions =>
        (handleAnnounceTransactions env fuel st member transactions).map
          (fun r => (r.1, r.2.map (fun p => (p.1, ShardMessage.Update p.2))))
  else some (st, [])

/-- `Shard::announce_block`: ingest locally, then send
`AnnounceBlocks([block])` to every member; members whose send fails (the
`failed` transport oracle) are dropped from both maps. -/
def announce_block (st : Shard) (block : Block)
    (failed : List ShardMember) (fuel : Nat) :
    Option (Shard × List (ShardMember × ShardMessage)) :=
  match st.backend.handle_block block fuel with
  | none => none
  | some (backend2, _) =>
      let st2 := { st with backend := backend2 }
      let members := st2.subscribers.map (·.1) ++
        st2.subscriptions.map (·.1)
      some
        ({ st2 with
            subscribers := (st2.subscribers.filter
              (fun p => ! failed.contains p.1)),
            subscriptions := (st2.subscriptions.filter
              (fun p => ! failed.contains p.1)) },
          (members.filter (fun m => ! failed.contains m)).map
            (fun m => (m,
              ShardMessage.Update (ShardUpdate.AnnounceBlocks [block]))))

/-- `Shard::announce_transaction`: the transaction counterpart. -/
def announce_transaction (st : Shard) (t : Transaction)
    (failed : List ShardMember) (fuel : Nat) :
    Option (Shard × List (ShardMember × ShardMessage)) :=
  match st.backend.handle_transaction t fuel with
  | none => none
  | some (backend2, _) =>
      let st2 := { st with backend := backend2 }
      let members := st2.subscribers.map (·.1) ++
        st2.subscriptions.map (·.1)
      some
        ({ st2 with
            subscribers := (st2.subscribers.filter
              (fun p => ! failed.contains p.1)),
            subscriptions := (st2.subscriptions.filter
              (fun p => ! failed.contains p.1)) },
          (members.filter (fun m => ! failed.contains m)).map
            (fun m => (m,
              ShardMessage.Update
                (ShardUpdate.AnnounceTransactions [t]))))

/-- The `ShardMessage::Subscribe` branch of `Shard::update`: admission
requires `accept_subscriptions`, room below `max_subscribers`, and that
we are not ourselves subscribed to the sender; on refusal, optionally
answer with `AnnounceMembers`. (Admission re-inserts the member's old
status with a refreshed heartbeat instant; instants are not modelled.) -/
def recvSubscribe (st : Shard) (member : ShardMember) :
    Shard × List (ShardMember × ShardMessage) :=
  let allow_subscription := st.options.accept_subscriptions &&
    decide (st.options.max_subscribers > st.subscribers.length) &&
    ! mcontains st.subscriptions member
  if allow_subscription then
    let status := (mlookup st.subscribers member).getD ShardMemberStatus.new
    ({ st with
        subscribers := minsert (mremove st.subscribers member) member
          status }, [])
  else if st.options.announce_members_on_failed_subscription then
    (st, [(member,
      ShardMessage.Update
        (ShardUpdate.AnnounceMembers (st.subscribers.map (·.1))))])
  else (st, [])

/-- The `ShardMessage::Unsubscribe` branch. -/
def recvUnsubscribe (st : Shard) (member : ShardMember) : Shard :=
  { st with subscribers := mremove st.subscribers member }

/-- The end of a `Shard::update` tick: shrink both maps to their caps
(with `Unsubscribe` messages for shrunk subscriptions), then the three
timer checks, each of which can only evict members; wall-clock time is
outside the embedding, so the set of members the timers evict (heartbeat
expiry, heartbeat- or status-send failure) is an oracle input. -/
def tickEnd (st : Shard) (evicted : List ShardMember) :
    Shard × List (ShardMember × ShardMessage) :=
  let st1 :=
    if st.subscribers.length > st.options.max_subscribers then
      (shrink_subscribers st st.options.max_subscribers).1
    else st
  let step2 :=
    if st1.subscriptions.length > st1.options.max_subscriptions then
      shrink_subscriptions st1 st1.options.max_subscriptions
    else (st1, [])
  ({ step2.1 with
      subscriptions := (step2.1.subscriptions.filter
        (fun p => ! evicted.contains p.1)),
      subscribers := (step2.1.subscribers.filter
        (fun p => ! evicted.contains p.1)) },
    step2.2.map (fun m => (m, ShardMessage.Unsubscribe)))

/-- `Shard::new` composed with `with_options`. -/
def new (backend : BasicShardBackend) (options : ShardOptions) : Shard :=
  ⟨backend, [], [], [], [], options⟩

/-- A run of inbound updates (one per `update()` tick), collecting every
message sent, with a fixed benign oracle. -/
def runUpdates (env : ShardEnv) (fuel : Nat) :
    Shard → List (ShardMember × ShardUpdate) →
    Option (Shard × List (ShardMember × ShardMessage))
  | st, [] => some (st, [])
  | st, (member, update) :: rest =>
      match handleUpdateMessage env fuel st member update
          (fun _ => (0, true)) with
      | none => none
      | some (st2, sends) =>
          match runUpdates env fuel st2 rest with
          | none => none
          | some (st3, sends2) => some (st3, sends ++ sends2)

end Shard

/-- The operations a driver can perform on a shard: the public API calls
and the per-tick work of `Shard::update`, with the transport and timer
outcomes as oracle data. -/
inductive ShardOp where
  | subscribeOp (shard : ShardMember) (sendOk : Bool)
  | unsubscribeOp (shard : ShardMember) (sendOk : Bool)
  | announceBlockOp (block : Block) (failed : List ShardMember)
  | announceTransactionOp (t : Transaction) (failed : List ShardMember)
  | recvSubscribeOp (member : ShardMember)
  | recvUnsubscribeOp (member : ShardMember)
  | recvHeartbeatOp (member : ShardMember)
  | recvUpdateOp (member : ShardMember) (update : ShardUpdate)
      (oracle : Nat → Nat × Bool)
  | tickEndOp (evicted : List ShardMember)

/-- State effect of one operation (a heartbeat only stamps an instant,
which is not modelled). -/
def ShardOp.apply (env : ShardEnv) (fuel : Nat) (st : Shard) :
    ShardOp → Option Shard
  | .subscribeOp shard sendOk => some (st.subscribe shard sendOk).1
  | .unsubscribeOp shard sendOk => some (st.unsubscribe shard sendOk).1
  | .announceBlockOp block failed =>
      (st.announce_block block failed fuel).map (·.1)
  | .announceTransactionOp t failed =>
      (st.announce_transaction t failed fuel).map (·.1)
  | .recvSubscribeOp member => some (st.recvSubscribe member).1
  | .recvUnsubscribeOp member => some (st.recvUnsubscribe member)
  | .recvHeartbeatOp _ => some st
  | .recvUpdateOp member update oracle =>
      (Shard.handleUpdateMessage env fuel st member update oracle).map (·.1)
  | .tickEndOp evicted => some (st.tickEnd evicted).1

/-- A driver run: apply a sequence of operations. -/
def Shard.applyOps (env : ShardEnv) (fuel : Nat) :
    Shard → List ShardOp → Option Shard
  | st, [] => some st
  | st, op :: rest =>
      match ShardOp.apply env fuel st op with
      | none => none
      | some st2 => Shard.applyOps env fuel st2 rest

/-- No member is simultaneously a key of `subscriptions` and of
`subscribers`. -/
def MapsDisjoint (st : Shard) : Prop :=
  ∀ m : ShardMember, mcontains st.subscriptions m = true →
    mcontains st.subscribers m = false

/-- Backend with nothing stored and no hooks, shared by the overlay
examples. -/
def emptyBackend : BasicShardBackend := ⟨[], ⟨1, [], 0⟩, ⟨[]⟩, [], none, none⟩

/-- Transaction for the C5 failing input. -/
def c5Tx : Transaction := ⟨5, 0, 0, 1, [], []⟩

/-- A staged pool of 65 transactions, one more than the default
`max_transactions_diff_size`. -/
def c5Pool : List (Hash × Transaction) :=
  (List.range 65).map (fun i => (i, ⟨i, 0, 0, 1, [], []⟩))

/-- Member for the C7 failing input. -/
def c7Member : ShardMember := ⟨2, 3, ""⟩

/-- Environment in which every block and transaction validates. -/
def c9Env : ShardEnv := ⟨fun _ => .ok true, fun _ => .ok true⟩

/-- The peer `P` of the C9 run. -/
def c9Member : ShardMember := ⟨7, 0, ""⟩

/-- The block `P` announces in the C9 run (root block, authority 1). -/
def c9Block : Block := ⟨none, 40, 0, 0, 0, [], [], 1, []⟩

/-- Fresh shard with authority 1 and `P` subscribed, for the C9 run. -/
def c9Shard : Shard :=
  ⟨⟨[1], ⟨1, [], 0⟩, ⟨[]⟩, [], none, none⟩, [], [], [],
    [(c9Member, ShardMemberStatus.new)], ShardOptions.default⟩

/-- Root block announced in the C6 failing input. -/
def c6Block : Block := ⟨none, 30, 0, 0, 0, [], [], 1, []⟩

/-- Sender of the C6 announcement; its recorded status knows `c6Block`
(head = tail = `c6Block`). -/
def c6Sender : ShardMember := ⟨10, 0, ""⟩

/-- Recipient of the C6 re-announcement; its recorded status is empty. -/
def c6Recipient : ShardMember := ⟨11, 0, ""⟩

/-- Shard state of the C6 failing input: both peers are subscribers. -/
def c6Shard : Shard :=
  ⟨emptyBackend, [], [],
    [],
    [(c6Sender, ⟨some c6Block, some c6Block, []⟩),
     (c6Recipient, ShardMemberStatus.new)],
    ShardOptions.default⟩

/-- Shard subscribed to `c7Member`, for the C7 failing input. -/
def c7Shard : Shard :=
  ⟨emptyBackend, [], [], [(c7Member, ShardMemberStatus.new)], [],
    ShardOptions.default⟩

end Hyperchain

namespace Hyperchain

/-! ## Claim C8: double insertion into the chunked blocks index -/

theorem lookup_eq_some_mem {α : Type} (l : List (Nat × α)) (k : Nat) (v : α)
    (h : l.lookup k = some v) : (k, v) ∈ l := by
  induction l with
  | nil => simp [List.lookup] at h
  | cons e rest ih =>
      obtain ⟨a, w⟩ := e
      by_cases hk : k = a
      · subst hk
        simp [List.lookup] at h
        simp [h]
      · have hbk : (k == a) = false := by simp [beq_iff_eq]; exact hk
        simp only [List.lookup, hbk] at h
        exact List.mem_cons_of_mem _ (ih h)

theorem mem_stored_of_lookup (idx : ChunkedBlocksIndex) (k : Nat)
    (chunk : List Block) (b : Block) (hl : idx.chunks.lookup k = some chunk)
    (hb : b ∈ chunk) : idx.storesBlock b := by
  have hmem := lookup_eq_some_mem idx.chunks k chunk hl
  unfold ChunkedBlocksIndex.storesBlock ChunkedBlocksIndex.stored
  simp only [List.mem_flatMap]
  exact ⟨(k, chunk), hmem, hb⟩

theorem lookup_writeChunk_self (chunks : List (Nat × List Block)) (k : Nat)
    (content : List Block) (h : (chunks.lookup k).isSome) :
    (ChunkedBlocksIndex.writeChunk chunks k content).lookup k = some content := by
  induction chunks with
  | nil => simp [List.lookup] at h
  | cons e rest ih =>
      obtain ⟨a, v⟩ := e
      by_cases hk : a = k
      · subst hk
        simp [ChunkedBlocksIndex.writeChunk, List.lookup]
      · have hbk : (k == a) = false := by
          simp [beq_iff_eq]; exact fun hc => hk hc.symm
        simp only [ChunkedBlocksIndex.writeChunk, hk, if_false, List.lookup,
          hbk] at h ⊢
        exact ih h

/-- The chunk size is never modified by an insertion. -/
theorem insert_block_chunk_size (idx : ChunkedBlocksIndex) (b : Block) :
    (idx.insert_block b).1.chunk_size = idx.chunk_size := by
  unfold ChunkedBlocksIndex.insert_block
  cases idx.chunks.lookup (b.number / idx.chunk_size) with
  | none => rfl
  | some chunk =>
      by_cases hb : b ∈ chunk
      · simp [hb]
      · simp [hb]

/-- Inserting a block whose chunk already contains it returns `false` and
leaves the index untouched (the chunk file is not rewritten). -/
theorem insert_block_present (idx : ChunkedBlocksIndex) (b : Block)
    (chunk : List Block)
    (hl : idx.chunks.lookup (b.number / idx.chunk_size) = some chunk)
    (hb : b ∈ chunk) : idx.insert_block b = (idx, false) := by
  unfold ChunkedBlocksIndex.insert_block
  rw [hl]
  simp [hb]

/-- After a successful first insertion, the block is found in its chunk. -/
theorem insert_block_mem_chunk (idx : ChunkedBlocksIndex) (b : Block)
    (h : ¬ idx.storesBlock b) :
    ∃ chunk, ((idx.insert_block b).1.chunks.lookup
        (b.number / idx.chunk_size)) = some chunk ∧ b ∈ chunk := by
  unfold ChunkedBlocksIndex.insert_block
  cases hl : idx.chunks.lookup (b.number / idx.chunk_size) with
  | none =>
      refine ⟨[b], ?_, by simp⟩
      simp [List.lookup]
  | some chunk =>
      have hnb : b ∉ chunk := fun hb =>
        h (mem_stored_of_lookup idx _ chunk b hl hb)
      simp only [hnb, if_false, ite_false]
      refine ⟨b :: chunk, ?_, by simp⟩
      exact lookup_writeChunk_self idx.chunks _ _ (by rw [hl]; rfl)

/-- C8 (amended): if `b` is not already stored, the first `insert_block`
returns `true`, the second returns `false`, and the second call leaves the
index (hence the set of stored blocks) unchanged. -/
theorem insert_block_twice (idx : ChunkedBlocksIndex) (b : Block)
    (h : ¬ idx.storesBlock b) :
    (idx.insert_block b).2 = true ∧
    ((idx.insert_block b).1.insert_block b).2 = false ∧
    ((idx.insert_block b).1.insert_block b).1 = (idx.insert_block b).1 := by
  have hfst : (idx.insert_block b).2 = true := by
    unfold ChunkedBlocksIndex.insert_block
    cases hl0 : idx.chunks.lookup (b.number / idx.chunk_size) with
    | none => simp
    | some chunk0 =>
        have hnb : b ∉ chunk0 := fun hbm =>
          h (mem_stored_of_lookup idx _ chunk0 b hl0 hbm)
        simp [hnb]
  obtain ⟨chunk, hl, hb⟩ := insert_block_mem_chunk idx b h
  have hsnd := insert_block_present (idx.insert_block b).1 b chunk
    (by rw [insert_block_chunk_size idx b]; exact hl) hb
  exact ⟨hfst, by rw [hsnd], by rw [hsnd]⟩

/-- C8 (counterexample to the claim as stated): on an index that already
stores the block, the first of the two insertions returns `false`, not
`true`. -/
theorem insert_block_twice_counterexample :
    ((ChunkedBlocksIndex.mk 1
        [(0, [Block.mk none 7 0 0 0 [] [] 0 []])] 0).insert_block
      (Block.mk none 7 0 0 0 [] [] 0 [])).2 ≠ true := by
  decide

/-- C8 witness: the amended theorem applied to a fresh index. -/
theorem insert_block_twice_witness :
    ¬ (ChunkedBlocksIndex.mk 2 [] 0).storesBlock
        (Block.mk none 7 0 0 0 [] [] 0 []) ∧
    ((ChunkedBlocksIndex.mk 2 [] 0).insert_block
        (Block.mk none 7 0 0 0 [] [] 0 [])).2 = true :=
  ⟨by decide, (insert_block_twice _ _ (by decide)).1⟩

/-! ## Claim C1: chain monotonicity of `validate_since(0)` -/

/-- A block returned by `get_block(n)` carries number `n` — the chunk
search is `find(|block| block.number() == number)`. -/
theorem get_block_number (idx : ChunkedBlocksIndex) (n : Nat) (b : Block)
    (h : idx.get_block n = some b) : b.number = n := by
  unfold ChunkedBlocksIndex.get_block at h
  cases hl : idx.chunks.lookup (n / idx.chunk_size) with
  | none => rw [hl] at h; exact absurd h (by simp)
  | some chunk =>
      rw [hl] at h
      have := List.find?_some h
      simpa using this

/-- If the loop accepts starting at block `y`, the checks on `y` itself
pass: the seeded previous hash matches and the timestamp did not
decrease. -/
theorem validate_loop_head_facts (env : ValidationEnv)
    (idx : ChunkedBlocksIndex) (fuel : Nat) (y : Block) (ph : Option Hash)
    (pc pn : Nat)
    (h : validate_loop env idx fuel (some y) ph pc pn =
      some .Valid) : ph = y.previous_block ∧ pc ≤ y.created_at := by
  cases fuel with
  | zero => exact absurd h (by simp [validate_loop])
  | succ fuel =>
      unfold validate_loop at h
      by_cases h1 : y.created_at < pc ∨ y.created_at > env.max_timestamp
      · rw [if_pos h1] at h; exact absurd h (by simp)
      · rw [if_neg h1] at h
        have hpc : pc ≤ y.created_at := by
          push_neg at h1; exact h1.1
        by_cases h2 : 0 < pn ∧ pn + 1 ≠ y.number
        · rw [if_pos h2] at h; exact absurd h (by simp)
        · rw [if_neg h2] at h
          by_cases h3 : ph ≠ y.previous_block
          · rw [if_pos h3] at h; exact absurd h (by simp)
          · rw [if_neg h3] at h
            push_neg at h3
            exact ⟨h3, hpc⟩

/-- A `Valid` traversal visits a `ChainStep`-chained list whose head is
the start block. -/
theorem validate_loop_chain (env : ValidationEnv)
    (idx : ChunkedBlocksIndex) :
    ∀ (fuel : Nat) (block : Option Block) (ph : Option Hash) (pc pn : Nat),
    validate_loop env idx fuel block ph pc pn = some .Valid →
    (validate_visited env idx fuel block ph pc pn).Chain' ChainStep ∧
    (validate_visited env idx fuel block ph pc pn).head? = block := by
  intro fuel
  induction fuel with
  | zero => intro block ph pc pn h; exact absurd h (by simp [validate_loop])
  | succ fuel ih =>
      intro block ph pc pn h
      cases block with
      | none => simp [validate_visited]
      | some curr =>
          unfold validate_loop at h
          by_cases h1 : curr.created_at < pc ∨
              curr.created_at > env.max_timestamp
          · rw [if_pos h1] at h; exact absurd h (by simp)
          · rw [if_neg h1] at h
            by_cases h2 : 0 < pn ∧ pn + 1 ≠ curr.number
            · rw [if_pos h2] at h; exact absurd h (by simp)
            · rw [if_neg h2] at h
              by_cases h3 : ph ≠ curr.previous_block
              · rw [if_pos h3] at h; exact absurd h (by simp)
              · rw [if_neg h3] at h
                by_cases h4 : ¬ env.is_authority curr.validator
                · rw [if_pos h4] at h; exact absurd h (by simp)
                · rw [if_neg h4] at h
                  cases hv : env.block_validate curr with
                  | error e => rw [hv] at h; exact absurd h (by simp)
                  | ok good =>
                      cases good with
                      | false => rw [hv] at h; exact absurd h (by simp)
                      | true =>
                          rw [hv] at h
                          have hvis : validate_visited env idx (fuel + 1)
                              (some curr) ph pc pn =
                              curr :: validate_visited env idx fuel
                                (idx.get_next_block curr)
                                (some curr.get_hash) curr.created_at
                                curr.number := by
                            simp [validate_visited, h1, h2, h3, h4, hv]
                          obtain ⟨ihchain, ihshape⟩ := ih
                            (idx.get_next_block curr) (some curr.get_hash)
                            curr.created_at curr.number h
                          rw [hvis]
                          refine ⟨List.chain'_cons'.mpr ⟨?_, ihchain⟩, rfl⟩
                          intro y hy
                          rw [ihshape] at hy
                          have hnext : idx.get_next_block curr = some y :=
                            Option.mem_def.mp hy
                          rw [hnext] at h
                          have hnum : y.number = curr.number + 1 :=
                            get_block_number idx _ y hnext
                          have hfacts := validate_loop_head_facts env
                            idx fuel y (some curr.get_hash)
                            curr.created_at curr.number h
                          exact ⟨hnum, hfacts.1.symm, hfacts.2⟩

theorem head?_eq_get_zero {α : Type} (l : List α) (h : 0 < l.length) :
    l.head? = some (l.get ⟨0, h⟩) := by
  cases l with
  | nil => exact absurd h (by simp)
  | cons a t => rfl

/-- Block numbers along the visited chain of a `Valid` run from the root
are the positions: the head comes from `get_block(0)` and every step
increments the number. -/
theorem visited_since_zero_number (env : ValidationEnv)
    (idx : ChunkedBlocksIndex) (fuel : Nat)
    (hvalid : validate_since env idx 0 fuel = some .Valid) :
    ∀ i (h : i < (visited_since env idx 0 fuel).length),
      ((visited_since env idx 0 fuel).get ⟨i, h⟩).number = i := by
  simp only [validate_since, gt_iff_lt, lt_self_iff_false, if_false,
    ite_false] at hvalid
  obtain ⟨hchain, hhead⟩ := validate_loop_chain env idx fuel
    idx.get_root_block (idx.get_root_block.bind Block.previous_block) 0 0
    hvalid
  have hLdef : visited_since env idx 0 fuel = validate_visited env idx fuel
      idx.get_root_block (idx.get_root_block.bind Block.previous_block)
      0 0 := by
    simp [visited_since]
  rw [← hLdef] at hchain hhead
  intro i
  induction i with
  | zero =>
      intro h
      have h0 := head?_eq_get_zero (visited_since env idx 0 fuel) h
      rw [hhead] at h0
      exact get_block_number idx 0 _ h0
  | succ i ihi =>
      intro h
      have hstep := List.chain'_iff_get.mp hchain i (by omega)
      have := hstep.1
      rw [this, ihi (Nat.lt_of_succ_lt h)]

/-- C1: in any chain accepted by `validate_since(0)`, every visited block
after the first has the successor number, links to the previous visited
block's stored hash, and does not decrease the creation timestamp. -/
theorem validate_since_zero_chain_monotone (env : ValidationEnv)
    (idx : ChunkedBlocksIndex) (fuel : Nat)
    (hvalid : validate_since env idx 0 fuel = some .Valid) :
    ∀ i (h1 : i + 1 < (visited_since env idx 0 fuel).length),
      ((visited_since env idx 0 fuel).get ⟨i + 1, h1⟩).number = i + 1 ∧
      ((visited_since env idx 0 fuel).get ⟨i + 1, h1⟩).previous_block =
        some (((visited_since env idx 0 fuel).get
          ⟨i, Nat.lt_of_succ_lt h1⟩).get_hash) ∧
      ((visited_since env idx 0 fuel).get
          ⟨i, Nat.lt_of_succ_lt h1⟩).created_at ≤
        ((visited_since env idx 0 fuel).get ⟨i + 1, h1⟩).created_at := by
  intro i h1
  have hnum := visited_since_zero_number env idx fuel hvalid (i + 1) h1
  have hvalid' := hvalid
  simp only [validate_since, gt_iff_lt, lt_self_iff_false, if_false,
    ite_false] at hvalid'
  obtain ⟨hchain, _⟩ := validate_loop_chain env idx fuel
    idx.get_root_block (idx.get_root_block.bind Block.previous_block) 0 0
    hvalid'
  have hLdef : visited_since env idx 0 fuel = validate_visited env idx fuel
      idx.get_root_block (idx.get_root_block.bind Block.previous_block)
      0 0 := by
    simp [visited_since]
  rw [← hLdef] at hchain
  have hstep := List.chain'_iff_get.mp hchain i (by omega)
  exact ⟨hnum, hstep.2.1, hstep.2.2⟩

/-! ## Claim C4: the authority gate of `handle_block` -/

/-- C4: when the block's validator is not in the authorities index,
`handle_block` returns `false` without touching the blocks index, the
transactions index or the staged pool — the signature is never even
consulted (the routine has no access to it before this check). -/
theorem handle_block_authority_gate (st : BasicShardBackend) (b : Block)
    (fuel : Nat)
    (h : BasicShardBackend.is_authority st.authorities b.validator = false) :
    BasicShardBackend.handle_block st b fuel = some (st, false) := by
  unfold BasicShardBackend.handle_block
  rw [h]
  simp

/-- C4 witness: a backend with an empty authorities set rejects a block
unchanged. -/
theorem handle_block_authority_gate_witness :
    BasicShardBackend.is_authority ([] : List PublicKey) 5 = false ∧
    BasicShardBackend.handle_block
      ⟨[], ⟨1, [], 0⟩, ⟨[]⟩, [], none, none⟩
      ⟨none, 9, 0, 0, 0, [], [], 5, []⟩ 3 =
      some (⟨[], ⟨1, [], 0⟩, ⟨[]⟩, [], none, none⟩, false) :=
  ⟨by decide,
    handle_block_authority_gate ⟨[], ⟨1, [], 0⟩, ⟨[]⟩, [], none, none⟩
      ⟨none, 9, 0, 0, 0, [], [], 5, []⟩ 3 (by decide)⟩

/-! ## Claim C2: the return value of `handle_transaction`

`HashMap::insert` returns the *previous* binding, so `result.is_some()`
holds exactly when the hash was already a key of the staged pool; the
source returns `Ok(true)` in that case and `Ok(false)` for a genuinely
new entry — the opposite of the specified "true iff a new entry". -/

/-- C2 (code bug): on a fresh backend, `handle_transaction` stages the
new transaction but returns `false`; on a pool already holding the hash
it returns `true`. This inverts the claimed "true iff a new entry". -/
theorem handle_transaction_inverted_result :
    (BasicShardBackend.handle_transaction c2State c2Tx 1).map
      (fun r => (r.2,
        BasicShardBackend.get_staged_transaction r.1 c2Tx.get_hash)) =
      some (false, some c2Tx) ∧
    (BasicShardBackend.handle_transaction c2StateDup c2Tx 1).map (·.2) =
      some true := by
  decide

/-! ## Claim C3: stabilization removes staged transactions from the pool -/

/-- C3 (counterexample to the claim as stated): `handle_block` admits the
gapped block and returns `true`, but the transactions-index scan stops at
the gap, so the block's transaction is still staged afterwards. -/
theorem handle_block_stabilization_counterexample :
    (BasicShardBackend.handle_block c3State c3Block 4).map
      (fun r => (r.2,
        BasicShardBackend.get_staged_transaction r.1 c3Tx.get_hash)) =
      some (true, some c3Tx) ∧
    c3Tx ∈ c3Block.transactions := by
  decide

/-- The indexing loop only appends entries: the log is never rewritten. -/
theorem index_loop_entries_mono (idx : ChunkedBlocksIndex) :
    ∀ (fuel : Nat) (tf : TransactionsFile) (block : Block)
      (tf' : TransactionsFile),
    TransactionsFile.index_loop idx fuel tf block = some tf' →
    ∀ e ∈ tf.entries, e ∈ tf'.entries := by
  intro fuel
  induction fuel with
  | zero =>
      intro tf block tf' h
      exact absurd h (by simp [TransactionsFile.index_loop])
  | succ fuel ih =>
      intro tf block tf' h e he
      unfold TransactionsFile.index_loop at h
      cases hn : idx.get_next_block block with
      | none =>
          rw [hn] at h
          simp only [Option.some_inj] at h
          exact h ▸ he
      | some next =>
          rw [hn] at h
          exact ih (tf.index_block next) next tf' h e
            (List.mem_cons_of_mem _ he)

/-- Every block the indexing loop visits gets its entry appended. -/
theorem index_loop_visited_indexed (idx : ChunkedBlocksIndex) :
    ∀ (fuel : Nat) (tf : TransactionsFile) (block : Block)
      (tf' : TransactionsFile),
    TransactionsFile.index_loop idx fuel tf block = some tf' →
    ∀ blk ∈ index_loop_visited idx fuel block,
      (blk.number, blk.transactions.map Transaction.get_hash) ∈
        tf'.entries := by
  intro fuel
  induction fuel with
  | zero =>
      intro tf block tf' h
      exact absurd h (by simp [TransactionsFile.index_loop])
  | succ fuel ih =>
      intro tf block tf' h blk hblk
      unfold TransactionsFile.index_loop at h
      unfold index_loop_visited at hblk
      cases hn : idx.get_next_block block with
      | none => rw [hn] at hblk; exact absurd hblk (by simp)
      | some next =>
          rw [hn] at h hblk
          rcases List.mem_cons.mp hblk with hb | hb
          · subst hb
            exact index_loop_entries_mono idx fuel (tf.index_block blk)
              blk tf' h _ (by simp [TransactionsFile.index_block])
          · exact ih (tf.index_block next) next tf' h blk hb

/-- `index_if_needed` only appends entries. -/
theorem index_if_needed_entries_mono (tf : TransactionsFile)
    (idx : ChunkedBlocksIndex) (fuel : Nat) (tf' : TransactionsFile)
    (h : tf.index_if_needed idx fuel = some tf') :
    ∀ e ∈ tf.entries, e ∈ tf'.entries := by
  intro e he
  obtain ⟨entries⟩ := tf
  unfold TransactionsFile.index_if_needed at h
  cases entries with
  | nil => exact absurd he (by simp)
  | cons first rest =>
      obtain ⟨block_number, hashes⟩ := first
      dsimp only at h
      cases hg : idx.get_block block_number with
      | none =>
          rw [hg] at h
          simp only [Option.some_inj] at h
          exact h ▸ he
      | some block =>
          rw [hg] at h
          exact index_loop_entries_mono idx fuel _ block tf' h e he

/-- Every block `index_if_needed` visits gets its entry appended. -/
theorem index_if_needed_visited_indexed (tf : TransactionsFile)
    (idx : ChunkedBlocksIndex) (fuel : Nat) (tf' : TransactionsFile)
    (h : tf.index_if_needed idx fuel = some tf') :
    ∀ blk ∈ index_if_needed_visited tf idx fuel,
      (blk.number, blk.transactions.map Transaction.get_hash) ∈
        tf'.entries := by
  intro blk hblk
  obtain ⟨entries⟩ := tf
  unfold TransactionsFile.index_if_needed at h
  unfold index_if_needed_visited at hblk
  cases entries with
  | nil =>
      dsimp only at h hblk
      cases hh : idx.get_head_block with
      | none => rw [hh] at hblk; exact absurd hblk (by simp)
      | some block =>
          rw [hh] at h hblk
          rcases List.mem_cons.mp hblk with hb | hb
          · subst hb
            exact index_loop_entries_mono idx fuel _ blk tf' h _
              (by simp [TransactionsFile.index_block])
          · exact index_loop_visited_indexed idx fuel _ block tf' h blk hb
  | cons first rest =>
      obtain ⟨block_number, hashes⟩ := first
      dsimp only at h hblk
      cases hg : idx.get_block block_number with
      | none => rw [hg] at hblk; exact absurd hblk (by simp)
      | some block =>
          rw [hg] at h hblk
          exact index_loop_visited_indexed idx fuel _ block tf' h blk hblk

/-- A hash present in some entry of the log is found by `lookup_block`. -/
theorem lookup_block_isSome (tf : TransactionsFile) (hash : Hash)
    (n : Nat) (hashes : List Hash) (he : (n, hashes) ∈ tf.entries)
    (hh : hash ∈ hashes) : (tf.lookup_block hash).isSome = true := by
  cases hf : tf.entries.find? (fun entry => entry.2.contains hash) with
  | none =>
      rw [List.find?_eq_none] at hf
      have := hf (n, hashes) he
      simp at this
      exact absurd hh this
  | some entry =>
      simp [TransactionsFile.lookup_block, hf]
      exact ⟨n, hashes, he, hh⟩

/-- Inversion of `has_transaction`. -/
theorem has_transaction_inv (tf : TransactionsFile)
    (idx : ChunkedBlocksIndex) (hash : Hash) (fuel : Nat)
    (tf2 : TransactionsFile) (stab : Bool)
    (h : tf.has_transaction idx hash fuel = some (tf2, stab)) :
    tf.index_if_needed idx fuel = some tf2 ∧
    stab = (tf2.lookup_block hash).isSome := by
  unfold TransactionsFile.has_transaction at h
  cases hi : tf.index_if_needed idx fuel with
  | none => rw [hi] at h; exact absurd h (by simp)
  | some tfx =>
      rw [hi] at h
      simp only [Option.map_some', Option.some_inj, Prod.mk.injEq] at h
      obtain ⟨h1, h2⟩ := h
      subst h1
      exact ⟨rfl, h2.symm⟩

/-- If the hash is already recorded in the log when the rebuild starts,
no surviving pool entry carries it. -/
theorem rebuild_pool_drops (idx : ChunkedBlocksIndex) (fuel : Nat)
    (hb : Hash) (n : Nat) (hashes : List Hash) (hh : hb ∈ hashes) :
    ∀ (pool : List (Hash × Transaction)) (tf tfF : TransactionsFile)
      (kept : List (Hash × Transaction)),
    (n, hashes) ∈ tf.entries →
    BasicShardBackend.rebuild_pool idx fuel tf pool = some (tfF, kept) →
    ∀ p ∈ kept, p.1 ≠ hb := by
  intro pool
  induction pool with
  | nil =>
      intro tf tfF kept _ h p hp
      simp only [BasicShardBackend.rebuild_pool, Option.some_inj,
        Prod.mk.injEq] at h
      rw [← h.2] at hp
      exact absurd hp (by simp)
  | cons q rest ih =>
      intro tf tfF kept hentry h p hp
      obtain ⟨h0, t0⟩ := q
      unfold BasicShardBackend.rebuild_pool at h
      cases hht : tf.has_transaction idx h0 fuel with
      | none => rw [hht] at h; exact absurd h (by simp)
      | some r =>
          obtain ⟨tf2, stab⟩ := r
          rw [hht] at h
          dsimp only at h
          obtain ⟨hidx, hstab⟩ := has_transaction_inv tf idx h0 fuel tf2
            stab hht
          have hentry2 : (n, hashes) ∈ tf2.entries :=
            index_if_needed_entries_mono tf idx fuel tf2 hidx _ hentry
          cases hrec : BasicShardBackend.rebuild_pool idx fuel tf2 rest with
          | none => rw [hrec] at h; exact absurd h (by simp)
          | some r2 =>
              obtain ⟨tf3, kept'⟩ := r2
              rw [hrec] at h
              dsimp only at h
              simp only [Option.some_inj, Prod.mk.injEq] at h
              have hkept' : ∀ p ∈ kept', p.1 ≠ hb :=
                ih tf2 tf3 kept' hentry2 hrec
              by_cases heq : h0 = hb
              · subst heq
                have : stab = true := by
                  rw [hstab]
                  exact lookup_block_isSome tf2 h0 n hashes hentry2 hh
                rw [this] at h
                simp only [if_true] at h
                exact hkept' p (h.2 ▸ hp)
              · rw [← h.2] at hp
                by_cases hstabv : stab
                · rw [if_pos hstabv] at hp
                  exact hkept' p hp
                · rw [if_neg hstabv] at hp
                  rcases List.mem_cons.mp hp with hpq | hpr
                  · rw [hpq]; exact heq
                  · exact hkept' p hpr

/-- If the block carrying the hash is visited by the first re-indexing
pass of the rebuild, no surviving pool entry carries the hash. -/
theorem rebuild_pool_drops_visited (idx : ChunkedBlocksIndex) (fuel : Nat)
    (b : Block) (hb : Hash)
    (hh : hb ∈ b.transactions.map Transaction.get_hash)
    (pool : List (Hash × Transaction)) (tf tfF : TransactionsFile)
    (kept : List (Hash × Transaction))
    (hreach : b ∈ index_if_needed_visited tf idx fuel)
    (h : BasicShardBackend.rebuild_pool idx fuel tf pool = some (tfF, kept)) :
    ∀ p ∈ kept, p.1 ≠ hb := by
  cases pool with
  | nil =>
      simp only [BasicShardBackend.rebuild_pool, Option.some_inj,
        Prod.mk.injEq] at h
      intro p hp
      rw [← h.2] at hp
      exact absurd hp (by simp)
  | cons q rest =>
      obtain ⟨h0, t0⟩ := q
      unfold BasicShardBackend.rebuild_pool at h
      cases hht : tf.has_transaction idx h0 fuel with
      | none => rw [hht] at h; exact absurd h (by simp)
      | some r =>
          obtain ⟨tf2, stab⟩ := r
          rw [hht] at h
          dsimp only at h
          obtain ⟨hidx, hstab⟩ := has_transaction_inv tf idx h0 fuel tf2
            stab hht
          have hentry2 : (b.number,
              b.transactions.map Transaction.get_hash) ∈ tf2.entries :=
            index_if_needed_visited_indexed tf idx fuel tf2 hidx b hreach
          cases hrec : BasicShardBackend.rebuild_pool idx fuel tf2 rest with
          | none => rw [hrec] at h; exact absurd h (by simp)
          | some r2 =>
              obtain ⟨tf3, kept'⟩ := r2
              rw [hrec] at h
              dsimp only at h
              simp only [Option.some_inj, Prod.mk.injEq] at h
              have hkept' : ∀ p ∈ kept', p.1 ≠ hb :=
                rebuild_pool_drops idx fuel hb b.number _ hh rest tf2 tf3
                  kept' hentry2 hrec
              intro p hp
              by_cases heq : h0 = hb
              · subst heq
                have : stab = true := by
                  rw [hstab]
                  exact lookup_block_isSome tf2 h0 b.number _ hentry2 hh
                rw [this] at h
                simp only [if_true] at h
                exact hkept' p (h.2 ▸ hp)
              · rw [← h.2] at hp
                by_cases hstabv : stab
                · rw [if_pos hstabv] at hp
                  exact hkept' p hp
                · rw [if_neg hstabv] at hp
                  rcases List.mem_cons.mp hp with hpq | hpr
                  · rw [hpq]; exact heq
                  · exact hkept' p hpr

/-- No entry of the pool carries the hash, so `lookup` misses. -/
theorem lookup_eq_none_of_forall (pool : List (Hash × Transaction))
    (hb : Hash) (h : ∀ p ∈ pool, p.1 ≠ hb) : pool.lookup hb = none := by
  induction pool with
  | nil => rfl
  | cons q rest ih =>
      have hq : q.1 ≠ hb := h q (by simp)
      have : (hb == q.1) = false := by
        simp [beq_iff_eq]
        exact fun he => hq he.symm
      simp only [List.lookup, this]
      exact ih (fun p hp => h p (List.mem_cons_of_mem _ hp))

/-- C3 (amended): after `handle_block(b)` returns `true`, every
transaction of `b` is absent from the staged pool — provided `b` lies on
the successor chain the transactions-index scan walks (from the newest
indexed block, or from the head block for an empty log). The gapped
counterexample shows the proviso is necessary. -/
theorem handle_block_stabilization (st : BasicShardBackend) (b : Block)
    (fuel : Nat) (st' : BasicShardBackend)
    (hres : BasicShardBackend.handle_block st b fuel = some (st', true))
    (hreach : b ∈ index_if_needed_visited st.transactions
      (st.blocks.insert_block b).1 fuel)
    (t : Transaction) (ht : t ∈ b.transactions) :
    BasicShardBackend.get_staged_transaction st' t.get_hash = none := by
  unfold BasicShardBackend.handle_block at hres
  by_cases hauth :
      ¬ BasicShardBackend.is_authority st.authorities b.validator = true
  · rw [if_pos hauth] at hres
    exact absurd hres (by simp)
  · rw [if_neg hauth] at hres
    by_cases hhook : (match st.block_validator with
        | some validator => ! validator b
        | none => false) = true
    · rw [if_pos hhook] at hres
      exact absurd hres (by simp)
    · rw [if_neg hhook] at hres
      cases hins : st.blocks.insert_block b with
      | mk blocks2 result =>
          rw [hins] at hres hreach
          dsimp only at hres hreach
          cases result with
          | false => simp at hres
          | true =>
              rw [if_pos rfl] at hres
              cases hreb : BasicShardBackend.rebuild_pool blocks2 fuel
                  st.transactions st.staged_transactions with
              | none => rw [hreb] at hres; exact absurd hres (by simp)
              | some r =>
                  obtain ⟨tf, filtered⟩ := r
                  rw [hreb] at hres
                  dsimp only at hres
                  simp only [Option.some_inj, Prod.mk.injEq] at hres
                  have hstaged : st'.staged_transactions = filtered := by
                    rw [← hres.1]
                  have hdrop := rebuild_pool_drops_visited blocks2 fuel b
                    t.get_hash (List.mem_map_of_mem _ ht)
                    st.staged_transactions st.transactions tf filtered
                    hreach hreb
                  unfold BasicShardBackend.get_staged_transaction
                  rw [hstaged]
                  exact lookup_eq_none_of_forall filtered t.get_hash hdrop

/-- C3 witness: admitting the directly-chained block clears its
transaction from the staged pool. -/
theorem handle_block_stabilization_witness :
    BasicShardBackend.get_staged_transaction
      ⟨[1], ⟨1, [(1, [c3ChainBlock]), (0, [c3Block0])], 0⟩,
        ⟨[(1, [5]), (0, [])]⟩, [], none, none⟩ c3Tx.get_hash = none :=
  handle_block_stabilization c3State c3ChainBlock 4 _ rfl (by decide)
    c3Tx (by decide)

/-- C1 witness: the theorem applied to a concrete validated two-block
chain. -/
theorem validate_since_zero_chain_monotone_witness :
    validate_since c1Env c1Index 0 10 = some .Valid ∧
    ((visited_since c1Env c1Index 0 10).get ⟨1, by decide⟩).number = 1 :=
  ⟨by decide,
    (validate_since_zero_chain_monotone c1Env c1Index 10 (by decide) 0
      (by decide)).1⟩


/-! ## Claim C5: the status-triggered transactions diff -/

/-- C5 (code bug): the diff includes exactly the staged transactions
whose hash the remote's `staged_transactions` *contains* — the member
whose hash the remote lacks is omitted — and no
`max_transactions_diff_size` cap is applied: 65 staged transactions all
known to the remote produce a 65-element diff against the default cap of
64. -/
theorem transactions_diff_inverted_and_uncapped :
    transactions_diff [5] [(5, c5Tx)] [] = [] ∧
    transactions_diff [5] [(5, c5Tx)] [5] = [c5Tx] ∧
    (transactions_diff (c5Pool.map (·.1)) c5Pool
      (c5Pool.map (·.1))).length = 65 ∧
    ShardOptions.default.max_transactions_diff_size = 64 := by
  decide

/-! ## Claim C7: the message `unsubscribe` sends -/

/-- C7 (code bug): `Shard::unsubscribe` removes the member from the
`subscriptions` map but the wire message it sends is
`ShardMessage::Subscribe`, not `Unsubscribe`. -/
theorem unsubscribe_sends_subscribe_message :
    (Shard.unsubscribe c7Shard c7Member true).2 =
      [(c7Member, ShardMessage.Subscribe)] ∧
    ShardMessage.Subscribe ≠ ShardMessage.Unsubscribe ∧
    (Shard.unsubscribe c7Shard c7Member true).1.subscriptions = [] := by
  decide

/-! ## Claim C6: whose status filters the re-announced blocks -/

/-- C6 (code bug): in the re-send loop the status consulted for every
recipient is the *sender's* (`src/shard/mod.rs:744` looks up `member`,
not `subscriber`): with the sender's status knowing the block and the
recipient's status empty, the source sends nothing, while the
spec-prescribed recipient-filtered computation sends the block to the
recipient. -/
theorem resend_uses_sender_status :
    Shard.resendAnnouncedBlocks c6Shard c6Sender [c6Block] = [] ∧
    Shard.resendAnnouncedBlocksPerSpec c6Shard c6Sender [c6Block] =
      [(c6Recipient, ShardUpdate.AnnounceBlocks [c6Block])] := by
  decide

/-! ## Claim C9: loop suppression towards the announcing peer -/

/-- C9 (counterexample to the claim as stated): after ingesting `P`'s
`AnnounceBlocks([b])` (no message goes back to `P` there), a later
`Status` from `P` with empty endpoints triggers the blocks diff, which
neither excludes the sender's own announcements nor consults
`handled_blocks`: the shard answers `P` with an `AnnounceBlocks` message
referencing `b` (twice, even). -/
theorem status_diff_resends_to_announcer :
    (Shard.runUpdates c9Env 4 c9Shard
        [(c9Member, ShardUpdate.AnnounceBlocks [c9Block]),
         (c9Member, ShardUpdate.Status none none [])]).map (·.2) =
      some [(c9Member,
              ShardMessage.Update
                (ShardUpdate.AnnounceBlocks [c9Block, c9Block])),
            (c9Member,
              ShardMessage.Update
                (ShardUpdate.AnnounceTransactions []))] ∧
    c9Block ∈ [c9Block, c9Block] := by
  decide

/-- C9 (amended): within the handling of an `AnnounceBlocks` update
itself, the sender is excluded from the re-announcement recipients, so no
message of that step goes back to the announcing peer. (Later
status-triggered diffs may reference the announced blocks, as the
counterexample shows.) -/
theorem handleAnnounceBlocks_never_answers_sender (env : ShardEnv)
    (fuel : Nat) (st : Shard) (member : ShardMember) (blocks : List Block)
    (st' : Shard) (sends : List (ShardMember × ShardUpdate))
    (h : Shard.handleAnnounceBlocks env fuel st member blocks =
      some (st', sends)) :
    ∀ p ∈ sends, p.1 ≠ member := by
  unfold Shard.handleAnnounceBlocks at h
  cases hp : Shard.processAnnouncedBlocks env fuel st
      (sortByNumber blocks) with
  | none => rw [hp] at h; exact absurd h (by simp)
  | some r =>
      obtain ⟨st2, valid_blocks⟩ := r
      rw [hp] at h
      dsimp only at h
      simp only [Option.some_inj, Prod.mk.injEq] at h
      intro p hp2
      rw [← h.2] at hp2
      unfold Shard.resendAnnouncedBlocks at hp2
      rw [List.mem_filterMap] at hp2
      obtain ⟨x, hx, hfx⟩ := hp2
      rw [List.mem_filter] at hx
      have hxne : ¬ x = member := by
        have hx2 := hx.2
        simp only [Bool.not_eq_true', decide_eq_false_iff_not] at hx2
        exact hx2
      cases hml : (mlookup st2.subscriptions member).orElse
          (fun _ => mlookup st2.subscribers member) with
      | none => rw [hml] at hfx; exact absurd hfx (by simp)
      | some status =>
          rw [hml] at hfx
          dsimp only at hfx
          by_cases hemp : (valid_blocks.filter
              (fun block => ! status.is_block_known block)).isEmpty
          · rw [if_pos hemp] at hfx; exact absurd hfx (by simp)
          · rw [if_neg hemp] at hfx
            simp only [Option.some_inj] at hfx
            rw [← hfx]
            exact hxne

/-- C9 witness: the amended theorem applied to a concrete announcement
whose re-send list is nonempty. -/
theorem handleAnnounceBlocks_never_answers_sender_witness :
    c6Sender ≠ c6Recipient :=
  handleAnnounceBlocks_never_answers_sender c9Env 4 c6Shard c6Recipient
    [c6Block] _ [(c6Sender, ShardUpdate.AnnounceBlocks [c6Block])] rfl
    (c6Sender, ShardUpdate.AnnounceBlocks [c6Block]) (by decide)

/-! ## Claim C10: disjointness of the subscription maps -/

theorem mcontains_filter (l : MemberMap)
    (p : ShardMember × ShardMemberStatus → Bool) (m : ShardMember)
    (h : mcontains (l.filter p) m = true) : mcontains l m = true := by
  rw [mcontains, List.any_eq_true] at h ⊢
  obtain ⟨x, hx, hpx⟩ := h
  exact ⟨x, List.mem_of_mem_filter hx, hpx⟩

theorem mcontains_mremove_self (l : MemberMap) (m : ShardMember) :
    mcontains (mremove l m) m = false := by
  induction l with
  | nil => rfl
  | cons q rest ih =>
      by_cases hq : q.1 = m
      · simpa [mremove, mcontains, List.filter_cons, hq] using ih
      · simpa [mremove, mcontains, List.filter_cons, hq] using ih

theorem mcontains_mremove_ne (l : MemberMap) (k m : ShardMember)
    (h : ¬ m = k) : mcontains (mremove l k) m = mcontains l m := by
  have hkm : ¬ (k = m) := fun he => h he.symm
  induction l with
  | nil => rfl
  | cons q rest ih =>
      by_cases hq : q.1 = k
      · simp [mremove, mcontains, List.filter_cons, hq, hkm] at ih ⊢
        exact ih
      · by_cases hqm : q.1 = m
        · simp [mremove, mcontains, List.filter_cons, hq, hqm, h]
        · simp [mremove, mcontains, List.filter_cons, hq, hqm] at ih ⊢
          exact ih

theorem any_map_minsert (k : ShardMember) (s : ShardMemberStatus)
    (m : ShardMember) (h : ¬ m = k) : ∀ (l : MemberMap),
    (l.map (fun p => if p.1 = k then (k, s) else p)).any
      (fun p => decide (p.1 = m)) = l.any (fun p => decide (p.1 = m)) := by
  have hkm : ¬ (k = m) := fun he => h he.symm
  intro l
  rw [List.any_map]
  induction l with
  | nil => rfl
  | cons q rest ih =>
      simp only [List.any_cons, ih]
      congr 1
      by_cases hq : q.1 = k
      · simp [Function.comp, hq, hkm]
      · simp [Function.comp, hq]

theorem mcontains_minsert_ne (l : MemberMap) (k : ShardMember)
    (s : ShardMemberStatus) (m : ShardMember) (h : ¬ m = k) :
    mcontains (minsert l k s) m = mcontains l m := by
  have hkm : ¬ (k = m) := fun he => h he.symm
  unfold minsert
  by_cases hany : l.any (fun p => decide (p.1 = k)) = true
  · rw [if_pos hany]
    exact any_map_minsert k s m h l
  · rw [if_neg hany]
    simp [mcontains, hkm]

theorem mcontains_mupdate (l : MemberMap) (k : ShardMember)
    (f : ShardMemberStatus → ShardMemberStatus) (m : ShardMember) :
    mcontains (mupdate l k f) m = mcontains l m := by
  induction l with
  | nil => rfl
  | cons q rest ih =>
      by_cases hq : q.1 = k
      · simp [mupdate, mcontains, hq] at ih ⊢
        rw [ih]
      · simp [mupdate, mcontains, hq] at ih ⊢
        rw [ih]

theorem disjoint_of_sub (st st' : Shard)
    (h1 : ∀ m, mcontains st'.subscriptions m = true →
      mcontains st.subscriptions m = true)
    (h2 : ∀ m, mcontains st'.subscribers m = true →
      mcontains st.subscribers m = true)
    (hd : MapsDisjoint st) : MapsDisjoint st' := by
  intro m hm
  cases hb : mcontains st'.subscribers m with
  | false => rfl
  | true =>
      have hc := hd m (h1 m hm)
      rw [h2 m hb] at hc
      exact absurd hc (by simp)

theorem disjoint_of_keysEq (st st' : Shard)
    (h1 : ∀ m, mcontains st'.subscriptions m =
      mcontains st.subscriptions m)
    (h2 : ∀ m, mcontains st'.subscribers m = mcontains st.subscribers m)
    (hd : MapsDisjoint st) : MapsDisjoint st' := by
  intro m hm
  rw [h2 m]
  exact hd m (by rw [← h1 m]; exact hm)

theorem shrink_subscriptions_subscribers (st : Shard) (t : Nat) :
    (Shard.shrink_subscriptions st t).1.subscribers = st.subscribers := by
  unfold Shard.shrink_subscriptions
  by_cases hc : st.subscriptions.length ≤ t
  · rw [if_pos hc]
  · rw [if_neg hc]

theorem shrink_subscriptions_sub (st : Shard) (t : Nat) (m : ShardMember)
    (h : mcontains (Shard.shrink_subscriptions st t).1.subscriptions m =
      true) : mcontains st.subscriptions m = true := by
  unfold Shard.shrink_subscriptions at h
  by_cases hc : st.subscriptions.length ≤ t
  · rw [if_pos hc] at h; exact h
  · rw [if_neg hc] at h
    dsimp only at h
    exact mcontains_filter _ _ _ h

theorem shrink_subscribers_subscriptions (st : Shard) (t : Nat) :
    (Shard.shrink_subscribers st t).1.subscriptions = st.subscriptions := by
  unfold Shard.shrink_subscribers
  by_cases hc : st.subscribers.length ≤ t
  · rw [if_pos hc]
  · rw [if_neg hc]

theorem shrink_subscribers_sub (st : Shard) (t : Nat) (m : ShardMember)
    (h : mcontains (Shard.shrink_subscribers st t).1.subscribers m = true) :
    mcontains st.subscribers m = true := by
  unfold Shard.shrink_subscribers at h
  by_cases hc : st.subscribers.length ≤ t
  · rw [if_pos hc] at h; exact h
  · rw [if_neg hc] at h
    dsimp only at h
    exact mcontains_filter _ _ _ h

theorem subscribe_disjoint (st : Shard) (shard : ShardMember)
    (sendOk : Bool) (hd : MapsDisjoint st) :
    MapsDisjoint (Shard.subscribe st shard sendOk).1 := by
  unfold Shard.subscribe
  by_cases h0 : st.options.max_subscriptions = 0
  · rw [if_pos h0]; exact hd
  · rw [if_neg h0]
    dsimp only
    have hstep_dis : MapsDisjoint
        (if st.subscriptions.length ≥ st.options.max_subscriptions then
          Shard.shrink_subscriptions st (st.options.max_subscriptions - 1)
        else (st, [])).1 := by
      by_cases hc : st.subscriptions.length ≥ st.options.max_subscriptions
      · rw [if_pos hc]
        refine disjoint_of_sub st _ ?_ ?_ hd
        · exact fun m hm => shrink_subscriptions_sub st _ m hm
        · intro m hm
          rw [shrink_subscriptions_subscribers st _] at hm
          exact hm
      · rw [if_neg hc]; exact hd
    by_cases hs : sendOk = true
    · rw [if_pos hs]
      intro m hm
      dsimp only at hm ⊢
      by_cases hm_eq : m = shard
      · subst hm_eq; exact mcontains_mremove_self _ _
      · rw [mcontains_mremove_ne _ _ _ hm_eq]
        rw [mcontains_minsert_ne _ _ _ _ hm_eq] at hm
        exact hstep_dis m hm
    · rw [if_neg hs]
      exact hstep_dis

theorem recvSubscribe_disjoint (st : Shard) (member : ShardMember)
    (hd : MapsDisjoint st) :
    MapsDisjoint (Shard.recvSubscribe st member).1 := by
  unfold Shard.recvSubscribe
  by_cases ha : (st.options.accept_subscriptions &&
      decide (st.options.max_subscribers > st.subscribers.length) &&
      ! mcontains st.subscriptions member) = true
  · rw [if_pos ha]
    intro m hm
    dsimp only at hm ⊢
    by_cases hm_eq : m = member
    · subst hm_eq
      have hnm : mcontains st.subscriptions m = false := by
        simp only [Bool.and_eq_true, Bool.not_eq_true'] at ha
        exact ha.2
      rw [hnm] at hm
      exact absurd hm (by simp)
    · rw [mcontains_minsert_ne _ _ _ _ hm_eq, mcontains_mremove_ne _ _ _
        hm_eq]
      exact hd m hm
  · rw [if_neg ha]
    by_cases hb : st.options.announce_members_on_failed_subscription = true
    · rw [if_pos hb]; exact hd
    · rw [if_neg hb]; exact hd

theorem rememberStatus_keys (st : Shard) (member : ShardMember)
    (head_block tail_block : Option Block) (staged : List Hash) :
    (∀ m, mcontains
      (Shard.rememberStatus st member head_block tail_block
        staged).subscriptions m = mcontains st.subscriptions m) ∧
    (∀ m, mcontains
      (Shard.rememberStatus st member head_block tail_block
        staged).subscribers m = mcontains st.subscribers m) := by
  unfold Shard.rememberStatus
  by_cases h1 : st.options.remember_subscribers_statuses = true
  · rw [if_pos h1]
    by_cases h2 : mcontains st.subscribers member = true
    · rw [if_pos h2]
      exact ⟨fun m => rfl,
        fun m => by dsimp only; exact mcontains_mupdate _ _ _ m⟩
    · rw [if_neg h2]
      exact ⟨fun m => by dsimp only; exact mcontains_mupdate _ _ _ m,
        fun m => rfl⟩
  · rw [if_neg h1]
    exact ⟨fun m => rfl, fun m => rfl⟩

theorem ingestStatusBlock_maps (env : ShardEnv) (fuel : Nat) (st : Shard)
    (ob : Option Block) (st1 : Shard)
    (h : Shard.ingestStatusBlock env fuel st ob = some st1) :
    st1.subscriptions = st.subscriptions ∧
    st1.subscribers = st.subscribers := by
  cases ob with
  | none =>
      simp only [Shard.ingestStatusBlock, Option.some_inj] at h
      rw [← h]
      exact ⟨rfl, rfl⟩
  | some block =>
      unfold Shard.ingestStatusBlock at h
      dsimp only at h
      cases hv : env.block_validate block with
      | error e => rw [hv] at h; exact absurd h (by simp)
      | ok good =>
          cases good with
          | false =>
              rw [hv] at h
              dsimp only at h
              simp only [Option.some_inj] at h
              rw [← h]
              exact ⟨rfl, rfl⟩
          | true =>
              rw [hv] at h
              dsimp only at h
              cases hb : st.backend.handle_block block fuel with
              | none => rw [hb] at h; exact absurd h (by simp)
              | some r =>
                  rw [hb] at h
                  simp only [Option.map_some', Option.some_inj] at h
                  rw [← h]
                  exact ⟨rfl, rfl⟩

theorem statusBlocksDiff_maps (st : Shard)
    (head_block tail_block : Option Block) (fuel : Nat) (st4 : Shard)
    (diff_blocks : List Block)
    (h : Shard.statusBlocksDiff st head_block tail_block fuel =
      some (st4, diff_blocks)) :
    st4.subscriptions = st.subscriptions ∧
    st4.subscribers = st.subscribers := by
  unfold Shard.statusBlocksDiff at h
  cases ht : st.backend.get_tail_block fuel with
  | none => rw [ht] at h; exact absurd h (by simp)
  | some r =>
      obtain ⟨our_tail_block, backend2⟩ := r
      rw [ht] at h
      dsimp only at h
      split at h
      · split at h
        · exact absurd h (by simp)
        · split at h
          · exact absurd h (by simp)
          · simp only [Option.some_inj, Prod.mk.injEq] at h
            rw [← h.1]
            exact ⟨rfl, rfl⟩
      · simp only [Option.some_inj, Prod.mk.injEq] at h
        rw [← h.1]
        exact ⟨rfl, rfl⟩
      · simp only [Option.some_inj, Prod.mk.injEq] at h
        rw [← h.1]
        exact ⟨rfl, rfl⟩
      · simp only [Option.some_inj, Prod.mk.injEq] at h
        rw [← h.1]
        exact ⟨rfl, rfl⟩

theorem handleStatus_keys (env : ShardEnv) (fuel : Nat) (st : Shard)
    (member : ShardMember) (head_block tail_block : Option Block)
    (staged_transactions : List Hash) (st' : Shard)
    (sends : List (ShardMember × ShardUpdate))
    (h : Shard.handleStatus env fuel st member head_block tail_block
      staged_transactions = some (st', sends)) :
    (∀ m, mcontains st'.subscriptions m = mcontains st.subscriptions m) ∧
    (∀ m, mcontains st'.subscribers m = mcontains st.subscribers m) := by
  unfold Shard.handleStatus at h
  cases h1 : Shard.ingestStatusBlock env fuel st head_block with
  | none => rw [h1] at h; exact absurd h (by simp)
  | some st1 =>
      rw [h1] at h
      simp only [Option.bind_eq_bind, Option.some_bind] at h
      cases h2 : Shard.ingestStatusBlock env fuel st1 tail_block with
      | none => rw [h2] at h; exact absurd h (by simp)
      | some st2 =>
          rw [h2] at h
          simp only [Option.some_bind] at h
          obtain ⟨e1s, e1b⟩ :=
            ingestStatusBlock_maps env fuel st head_block st1 h1
          obtain ⟨e2s, e2b⟩ :=
            ingestStatusBlock_maps env fuel st1 tail_block st2 h2
          obtain ⟨rs, rb⟩ := rememberStatus_keys st2 member head_block
            tail_block staged_transactions.eraseDups
          by_cases hb : (Shard.rememberStatus st2 member head_block
              tail_block
              staged_transactions.eraseDups).options.send_blocks_diff_on_statuses = true
          · rw [if_pos hb] at h
            cases h4 : Shard.statusBlocksDiff
                (Shard.rememberStatus st2 member head_block tail_block
                  staged_transactions.eraseDups) head_block tail_block
                fuel with
            | none => rw [h4] at h; exact absurd h (by simp)
            | some r =>
                obtain ⟨st4, diff_blocks⟩ := r
                rw [h4] at h
                simp only [Option.some_bind, Option.pure_def,
                  Option.some_inj, Prod.mk.injEq] at h
                obtain ⟨ds, db⟩ := statusBlocksDiff_maps _ head_block
                  tail_block fuel st4 diff_blocks h4
                rw [← h.1]
                constructor
                · intro m
                  rw [ds, rs m, e2s, e1s]
                · intro m
                  rw [db, rb m, e2b, e1b]
          · rw [if_neg hb] at h
            simp only [Option.some_bind, Option.pure_def,
              Option.some_inj, Prod.mk.injEq] at h
            rw [← h.1]
            constructor
            · intro m
              rw [rs m, e2s, e1s]
            · intro m
              rw [rb m, e2b, e1b]

theorem processAnnouncedBlocks_maps (env : ShardEnv) (fuel : Nat) :
    ∀ (blocks : List Block) (st st2 : Shard) (valid_blocks : List Block),
    Shard.processAnnouncedBlocks env fuel st blocks =
      some (st2, valid_blocks) →
    st2.subscriptions = st.subscriptions ∧
    st2.subscribers = st.subscribers := by
  intro blocks
  induction blocks with
  | nil =>
      intro st st2 valid_blocks h
      simp only [Shard.processAnnouncedBlocks, Option.some_inj,
        Prod.mk.injEq] at h
      rw [← h.1]
      exact ⟨rfl, rfl⟩
  | cons block rest ih =>
      intro st st2 valid_blocks h
      unfold Shard.processAnnouncedBlocks at h
      by_cases h1 : st.handled_blocks.contains block.get_hash = true
      · rw [if_pos h1] at h
        exact ih st st2 valid_blocks h
      · rw [if_neg h1] at h
        cases hv : env.block_validate block with
        | error e => rw [hv] at h; exact absurd h (by simp)
        | ok good =>
            cases good with
            | false =>
                rw [hv] at h
                dsimp only at h
                exact ih st st2 valid_blocks h
            | true =>
                rw [hv] at h
                dsimp only at h
                cases hb : st.backend.handle_block block fuel with
                | none => rw [hb] at h; exact absurd h (by simp)
                | some r =>
                    rw [hb] at h
                    dsimp only at h
                    cases hrec : Shard.processAnnouncedBlocks env fuel
                        { st with
                          backend := r.1,
                          handled_blocks := block.get_hash ::
                            (if st.handled_blocks.length ≥
                                st.options.max_handled_blocks_memory
                              then [] else st.handled_blocks) } rest with
                    | none => rw [hrec] at h; exact absurd h (by simp)
                    | some r2 =>
                        rw [hrec] at h
                        dsimp only at h
                        simp only [Option.some_inj, Prod.mk.injEq] at h
                        obtain ⟨es, eb⟩ := ih _ r2.1 r2.2 (by
                          rw [← hrec])
                        rw [← h.1]
                        exact ⟨es, eb⟩

theorem processAnnouncedTransactions_maps (env : ShardEnv) (fuel : Nat) :
    ∀ (transactions : List Transaction) (st st2 : Shard)
      (valid_transactions : List Transaction),
    Shard.processAnnouncedTransactions env fuel st transactions =
      some (st2, valid_transactions) →
    st2.subscriptions = st.subscriptions ∧
    st2.subscribers = st.subscribers := by
  intro transactions
  induction transactions with
  | nil =>
      intro st st2 valid h
      simp only [Shard.processAnnouncedTransactions, Option.some_inj,
        Prod.mk.injEq] at h
      rw [← h.1]
      exact ⟨rfl, rfl⟩
  | cons t rest ih =>
      intro st st2 valid h
      unfold Shard.processAnnouncedTransactions at h
      by_cases h1 : st.handled_transactions.contains t.get_hash = true
      · rw [if_pos h1] at h
        exact ih st st2 valid h
      · rw [if_neg h1] at h
        cases hv : env.transaction_validate t with
        | error e => rw [hv] at h; exact absurd h (by simp)
        | ok good =>
            cases good with
            | false =>
                rw [hv] at h
                dsimp only at h
                exact ih st st2 valid h
            | true =>
                rw [hv] at h
                dsimp only at h
                cases hb : st.backend.handle_transaction t fuel with
                | none => rw [hb] at h; exact absurd h (by simp)
                | some r =>
                    rw [hb] at h
                    dsimp only at h
                    cases hrec : Shard.processAnnouncedTransactions env
                        fuel
                        { st with
                          backend := r.1,
                          handled_transactions := t.get_hash ::
                            (if st.handled_transactions.length ≥
                                st.options.max_handled_transactions_memory
                              then [] else st.handled_transactions) }
                        rest with
                    | none => rw [hrec] at h; exact absurd h (by simp)
                    | some r2 =>
                        rw [hrec] at h
                        dsimp only at h
                        simp only [Option.some_inj, Prod.mk.injEq] at h
                        obtain ⟨es, eb⟩ := ih _ r2.1 r2.2 (by
                          rw [← hrec])
                        rw [← h.1]
                        exact ⟨es, eb⟩

theorem announceMembersLoop_disjoint (oracle : Nat → Nat × Bool) :
    ∀ (fuel i : Nat) (st : Shard) (members : List ShardMember),
    MapsDisjoint st →
    MapsDisjoint (Shard.announceMembersLoop oracle fuel i st members).1 := by
  intro fuel
  induction fuel with
  | zero => intro i st members hd; exact hd
  | succ fuel ih =>
      intro i st members hd
      unfold Shard.announceMembersLoop
      by_cases h1 : members.isEmpty = true
      · rw [if_pos h1]; exact hd
      · rw [if_neg h1]
        by_cases h2 : st.subscriptions.length ≥ st.options.max_subscriptions
        · rw [if_pos h2]; exact hd
        · rw [if_neg h2]
          dsimp only
          cases hm : members[if st.options.randomly_choose_announced_members
              = true then (oracle i).1 % members.length else 0]? with
          | none => exact hd
          | some mem =>
              dsimp only
              exact ih (i + 1) _ _
                (subscribe_disjoint st mem (oracle i).2 hd)

theorem handleAnnounceBlocks_maps (env : ShardEnv) (fuel : Nat)
    (st : Shard) (member : ShardMember) (blocks : List Block)
    (st' : Shard) (sends : List (ShardMember × ShardUpdate))
    (h : Shard.handleAnnounceBlocks env fuel st member blocks =
      some (st', sends)) :
    st'.subscriptions = st.subscriptions ∧
    st'.subscribers = st.subscribers := by
  unfold Shard.handleAnnounceBlocks at h
  cases hp : Shard.processAnnouncedBlocks env fuel st
      (sortByNumber blocks) with
  | none => rw [hp] at h; exact absurd h (by simp)
  | some r =>
      rw [hp] at h
      dsimp only at h
      simp only [Option.some_inj, Prod.mk.injEq] at h
      obtain ⟨es, eb⟩ := processAnnouncedBlocks_maps env fuel
        (sortByNumber blocks) st r.1 r.2 (by rw [← hp])
      rw [← h.1]
      exact ⟨es, eb⟩

theorem handleAnnounceTransactions_maps (env : ShardEnv) (fuel : Nat)
    (st : Shard) (member : ShardMember)
    (transactions : List Transaction) (st' : Shard)
    (sends : List (ShardMember × ShardUpdate))
    (h : Shard.handleAnnounceTransactions env fuel st member
      transactions = some (st', sends)) :
    st'.subscriptions = st.subscriptions ∧
    st'.subscribers = st.subscribers := by
  unfold Shard.handleAnnounceTransactions at h
  cases hp : Shard.processAnnouncedTransactions env fuel st
      transactions with
  | none => rw [hp] at h; exact absurd h (by simp)
  | some r =>
      rw [hp] at h
      dsimp only at h
      simp only [Option.some_inj, Prod.mk.injEq] at h
      obtain ⟨es, eb⟩ := processAnnouncedTransactions_maps env fuel
        transactions st r.1 r.2 (by rw [← hp])
      rw [← h.1]
      exact ⟨es, eb⟩

theorem handleUpdateMessage_disjoint (env : ShardEnv) (fuel : Nat)
    (st : Shard) (member : ShardMember) (update : ShardUpdate)
    (oracle : Nat → Nat × Bool) (st' : Shard)
    (sends : List (ShardMember × ShardMessage))
    (h : Shard.handleUpdateMessage env fuel st member update oracle =
      some (st', sends))
    (hd : MapsDisjoint st) : MapsDisjoint st' := by
  unfold Shard.handleUpdateMessage at h
  by_cases hg : (mcontains st.subscribers member ||
      mcontains st.subscriptions member) = true
  · rw [if_pos hg] at h
    cases update with
    | Status head_block tail_block staged_transactions =>
        dsimp only at h
        cases hs : Shard.handleStatus env fuel st member head_block
            tail_block staged_transactions with
        | none => rw [hs] at h; exact absurd h (by simp)
        | some r =>
            rw [hs] at h
            simp only [Option.map_some', Option.some_inj,
              Prod.mk.injEq] at h
            obtain ⟨ks, kb⟩ := handleStatus_keys env fuel st member
              head_block tail_block staged_transactions r.1 r.2
              (by rw [← hs])
            exact disjoint_of_keysEq st st' (by rw [← h.1]; exact ks)
              (by rw [← h.1]; exact kb) hd
    | AnnounceMembers members =>
        dsimp only at h
        simp only [Option.some_inj] at h
        rw [Prod.ext_iff] at h
        have h1 := h.1
        dsimp only at h1
        rw [← h1]
        unfold Shard.handleAnnounceMembers
        by_cases hc : (st.options.subscribe_on_announced_members &&
            mcontains st.subscriptions member) = true
        · rw [if_pos hc]
          exact announceMembersLoop_disjoint oracle members.length 0 st
            members hd
        · rw [if_neg hc]; exact hd
    | AnnounceBlocks blocks =>
        dsimp only at h
        cases hs : Shard.handleAnnounceBlocks env fuel st member
            blocks with
        | none => rw [hs] at h; exact absurd h (by simp)
        | some r =>
            rw [hs] at h
            simp only [Option.map_some', Option.some_inj,
              Prod.mk.injEq] at h
            obtain ⟨ks, kb⟩ := handleAnnounceBlocks_maps env fuel st
              member blocks r.1 r.2 (by rw [← hs])
            refine disjoint_of_keysEq st st' ?_ ?_ hd
            · intro m; rw [← h.1]; rw [ks]
            · intro m; rw [← h.1]; rw [kb]
    | AnnounceTransactions transactions =>
        dsimp only at h
        cases hs : Shard.handleAnnounceTransactions env fuel st member
            transactions with
        | none => rw [hs] at h; exact absurd h (by simp)
        | some r =>
            rw [hs] at h
            simp only [Option.map_some', Option.some_inj,
              Prod.mk.injEq] at h
            obtain ⟨ks, kb⟩ := handleAnnounceTransactions_maps env fuel
              st member transactions r.1 r.2 (by rw [← hs])
            refine disjoint_of_keysEq st st' ?_ ?_ hd
            · intro m; rw [← h.1]; rw [ks]
            · intro m; rw [← h.1]; rw [kb]
  · rw [if_neg hg] at h
    simp only [Option.some_inj, Prod.mk.injEq] at h
    rw [← h.1]
    exact hd

theorem unsubscribe_disjoint (st : Shard) (shard : ShardMember)
    (sendOk : Bool) (hd : MapsDisjoint st) :
    MapsDisjoint (Shard.unsubscribe st shard sendOk).1 := by
  unfold Shard.unsubscribe
  by_cases hs : sendOk = true
  · rw [if_pos hs]
    refine disjoint_of_sub st _ ?_ (fun m hm => hm) hd
    intro m hm
    dsimp only at hm
    exact mcontains_filter _ _ _ hm
  · rw [if_neg hs]; exact hd

theorem announce_block_disjoint (st : Shard) (block : Block)
    (failed : List ShardMember) (fuel : Nat) (st' : Shard)
    (sends : List (ShardMember × ShardMessage))
    (h : Shard.announce_block st block failed fuel = some (st', sends))
    (hd : MapsDisjoint st) : MapsDisjoint st' := by
  unfold Shard.announce_block at h
  cases hb : st.backend.handle_block block fuel with
  | none => rw [hb] at h; exact absurd h (by simp)
  | some r =>
      rw [hb] at h
      dsimp only at h
      simp only [Option.some_inj, Prod.mk.injEq] at h
      rw [← h.1]
      refine disjoint_of_sub st _ ?_ ?_ hd
      · intro m hm
        dsimp only at hm
        exact mcontains_filter _ _ _ hm
      · intro m hm
        dsimp only at hm
        exact mcontains_filter _ _ _ hm

theorem announce_transaction_disjoint (st : Shard) (t : Transaction)
    (failed : List ShardMember) (fuel : Nat) (st' : Shard)
    (sends : List (ShardMember × ShardMessage))
    (h : Shard.announce_transaction st t failed fuel = some (st', sends))
    (hd : MapsDisjoint st) : MapsDisjoint st' := by
  unfold Shard.announce_transaction at h
  cases hb : st.backend.handle_transaction t fuel with
  | none => rw [hb] at h; exact absurd h (by simp)
  | some r =>
      rw [hb] at h
      dsimp only at h
      simp only [Option.some_inj, Prod.mk.injEq] at h
      rw [← h.1]
      refine disjoint_of_sub st _ ?_ ?_ hd
      · intro m hm
        dsimp only at hm
        exact mcontains_filter _ _ _ hm
      · intro m hm
        dsimp only at hm
        exact mcontains_filter _ _ _ hm

theorem tickEnd_disjoint (st : Shard) (evicted : List ShardMember)
    (hd : MapsDisjoint st) : MapsDisjoint (Shard.tickEnd st evicted).1 := by
  unfold Shard.tickEnd
  dsimp only
  have h1 : MapsDisjoint
      (if st.subscribers.length > st.options.max_subscribers then
        (Shard.shrink_subscribers st st.options.max_subscribers).1
      else st) := by
    by_cases hc : st.subscribers.length > st.options.max_subscribers
    · rw [if_pos hc]
      refine disjoint_of_sub st _ ?_ ?_ hd
      · intro m hm
        rw [shrink_subscribers_subscriptions st _] at hm
        exact hm
      · exact fun m hm => shrink_subscribers_sub st _ m hm
    · rw [if_neg hc]; exact hd
  have h2 : MapsDisjoint
      (if (if st.subscribers.length > st.options.max_subscribers then
            (Shard.shrink_subscribers st st.options.max_subscribers).1
          else st).subscriptions.length >
          (if st.subscribers.length > st.options.max_subscribers then
            (Shard.shrink_subscribers st st.options.max_subscribers).1
          else st).options.max_subscriptions then
        Shard.shrink_subscriptions
          (if st.subscribers.length > st.options.max_subscribers then
            (Shard.shrink_subscribers st st.options.max_subscribers).1
          else st)
          (if st.subscribers.length > st.options.max_subscribers then
            (Shard.shrink_subscribers st st.options.max_subscribers).1
          else st).options.max_subscriptions
      else
        ((if st.subscribers.length > st.options.max_subscribers then
            (Shard.shrink_subscribers st st.options.max_subscribers).1
          else st), [])).1 := by
    set st1 := if st.subscribers.length > st.options.max_subscribers then
        (Shard.shrink_subscribers st st.options.max_subscribers).1
      else st
    by_cases hc : st1.subscriptions.length > st1.options.max_subscriptions
    · rw [if_pos hc]
      refine disjoint_of_sub st1 _ ?_ ?_ h1
      · exact fun m hm => shrink_subscriptions_sub st1 _ m hm
      · intro m hm
        rw [shrink_subscriptions_subscribers st1 _] at hm
        exact hm
    · rw [if_neg hc]; exact h1
  refine disjoint_of_sub _ _ ?_ ?_ h2
  · intro m hm
    dsimp only at hm
    exact mcontains_filter _ _ _ hm
  · intro m hm
    dsimp only at hm
    exact mcontains_filter _ _ _ hm

theorem shardOp_apply_disjoint (env : ShardEnv) (fuel : Nat) (st : Shard)
    (op : ShardOp) (st' : Shard)
    (h : ShardOp.apply env fuel st op = some st')
    (hd : MapsDisjoint st) : MapsDisjoint st' := by
  cases op with
  | subscribeOp shard sendOk =>
      simp only [ShardOp.apply, Option.some_inj] at h
      rw [← h]
      exact subscribe_disjoint st shard sendOk hd
  | unsubscribeOp shard sendOk =>
      simp only [ShardOp.apply, Option.some_inj] at h
      rw [← h]
      exact unsubscribe_disjoint st shard sendOk hd
  | announceBlockOp block failed =>
      simp only [ShardOp.apply] at h
      cases hb : Shard.announce_block st block failed fuel with
      | none => rw [hb] at h; exact absurd h (by simp)
      | some r =>
          rw [hb] at h
          simp only [Option.map_some', Option.some_inj] at h
          rw [← h]
          exact announce_block_disjoint st block failed fuel r.1 r.2
            (by rw [← hb]) hd
  | announceTransactionOp t failed =>
      simp only [ShardOp.apply] at h
      cases hb : Shard.announce_transaction st t failed fuel with
      | none => rw [hb] at h; exact absurd h (by simp)
      | some r =>
          rw [hb] at h
          simp only [Option.map_some', Option.some_inj] at h
          rw [← h]
          exact announce_transaction_disjoint st t failed fuel r.1 r.2
            (by rw [← hb]) hd
  | recvSubscribeOp member =>
      simp only [ShardOp.apply, Option.some_inj] at h
      rw [← h]
      exact recvSubscribe_disjoint st member hd
  | recvUnsubscribeOp member =>
      simp only [ShardOp.apply, Option.some_inj] at h
      rw [← h]
      refine disjoint_of_sub st _ (fun m hm => hm) ?_ hd
      intro m hm
      dsimp only [Shard.recvUnsubscribe] at hm
      exact mcontains_filter _ _ _ hm
  | recvHeartbeatOp member =>
      simp only [ShardOp.apply, Option.some_inj] at h
      rw [← h]
      exact hd
  | recvUpdateOp member update oracle =>
      simp only [ShardOp.apply] at h
      cases hu : Shard.handleUpdateMessage env fuel st member update
          oracle with
      | none => rw [hu] at h; exact absurd h (by simp)
      | some r =>
          rw [hu] at h
          simp only [Option.map_some', Option.some_inj] at h
          rw [← h]
          exact handleUpdateMessage_disjoint env fuel st member update
            oracle r.1 r.2 (by rw [← hu]) hd
  | tickEndOp evicted =>
      simp only [ShardOp.apply, Option.some_inj] at h
      rw [← h]
      exact tickEnd_disjoint st evicted hd

/-- C10: from a fresh shard, after any sequence of subscribe,
unsubscribe, announce and update operations (with arbitrary transport,
randomness and timer outcomes), no member is simultaneously a key of the
`subscriptions` and `subscribers` maps: the outbound `subscribe` first
removes the member from `subscribers`, and an inbound `Subscribe` is only
admitted when the sender is not among our subscriptions; every other
transition only removes keys or rewrites statuses. -/
theorem shard_subscription_maps_disjoint (env : ShardEnv) (fuel : Nat)
    (backend : BasicShardBackend) (options : ShardOptions)
    (ops : List ShardOp) (st' : Shard)
    (h : Shard.applyOps env fuel (Shard.new backend options) ops =
      some st') :
    ∀ m, mcontains st'.subscriptions m = true →
      mcontains st'.subscribers m = false := by
  have start : MapsDisjoint (Shard.new backend options) := by
    intro m hm
    exact absurd hm (by simp [Shard.new, mcontains])
  have main : ∀ (ops : List ShardOp) (st st' : Shard),
      Shard.applyOps env fuel st ops = some st' → MapsDisjoint st →
      MapsDisjoint st' := by
    intro ops
    induction ops with
    | nil =>
        intro st st' h hd
        simp only [Shard.applyOps, Option.some_inj] at h
        rw [← h]
        exact hd
    | cons op rest ih =>
        intro st st' h hd
        unfold Shard.applyOps at h
        cases ha : ShardOp.apply env fuel st op with
        | none => rw [ha] at h; exact absurd h (by simp)
        | some st2 =>
            rw [ha] at h
            exact ih st2 st' h
              (shardOp_apply_disjoint env fuel st op st2 ha hd)
  exact main ops (Shard.new backend options) st' h start

/-- C10 witness: receive a subscription from a member, then subscribe to
that same member ourselves; the member ends up only in `subscriptions`. -/
theorem shard_subscription_maps_disjoint_witness :
    mcontains [(c7Member, ShardMemberStatus.new)] c7Member = true ∧
    mcontains ([] : MemberMap) c7Member = false :=
  ⟨by decide,
    shard_subscription_maps_disjoint c9Env 1 emptyBackend
      ShardOptions.default
      [ShardOp.recvSubscribeOp c7Member,
       ShardOp.subscribeOp c7Member true]
      ⟨emptyBackend, [], [], [(c7Member, ShardMemberStatus.new)], [],
        ShardOptions.default⟩ rfl c7Member (by decide)⟩

end Hyperchain
